import Mathlib

/-!
# Verification of the SDL OpenGL ES2 render backend cache and pipeline selector

Shallow embedding of `src/src/render/opengles2/SDL_render_gles2.c`.

Conventions used throughout this development:

* C pointers to heap objects are modelled as `Nat` identifiers; an allocator
  counter (`fresh`) hands out strictly increasing ids, so a freed id is never
  reused and a dangling pointer can be recognised.
* A heap is an association list `List (Nat × entry)`; reading or writing
  through a pointer whose id is not in the heap models a use-after-free and
  the whole operation yields `none` (the C program has undefined behaviour
  or crashes there, so no defined post-state exists).
* Machine integers that can only be compared/incremented here are modelled
  as `Int` (no arithmetic in the source can overflow within the claims'
  scope; counts stay below 10).
* GL calls that matter to the claims are recorded in a `trace` list inside
  the state, newest first, so "no program-bind call was issued" is the
  statement that the trace is unchanged.
* `SDL_SetError` calls are modelled by a `lastError` field with an error
  code per distinct message.
* The float matrix of `GLES2_SetOrthographicProjection` is modelled over
  `ℚ`; every entry the claims mention is exactly representable and the two
  corner evaluations are exact, so rational arithmetic is faithful for the
  stated properties.
-/

/-! ## Basic enumerations (from SDL_render_gles2.c and SDL_shaders_gles2.h) -/

/-- GLES2_ShaderType: the three abstract shader kinds used by
`GLES2_SelectProgram` (`GLES2_SHADER_VERTEX_DEFAULT`,
`GLES2_SHADER_FRAGMENT_SOLID_SRC`, `GLES2_SHADER_FRAGMENT_TEXTURE_SRC`). -/
inductive ShaderType where
  | vertexDefault
  | fragmentSolid
  | fragmentTexture
  deriving DecidableEq

/-- GLES2_ImageSource (line 113). -/
inductive ImageSource where
  | solid
  | texture
  deriving DecidableEq

/-- One error code per distinct SDL_SetError message in the file. -/
inductive Err where
  | unsupportedShader      -- "No shader matching the requested characteristics was found"
  | unsupportedPlatform    -- "The specified shader cannot be loaded on the current platform"
  | outOfMemory            -- SDL_OutOfMemory()
  | shaderCompileError     -- "Failed to load the specified shader"
  | programLinkError       -- "Failed to link shader program"
  | programBindError       -- "Failed to select program"
  | uniformUploadError     -- "Failed to set orthographic projection"
  deriving DecidableEq

/-- The GL calls relevant to the claims, recorded newest-first. -/
inductive GLCmd where
  | createShader (id : Nat)
  | deleteShader (id : Nat)
  | createProgram (id : Nat)
  | deleteProgram (id : Nat)
  | useProgram (id : Nat)
  | uniformProjection
  deriving DecidableEq

/-! ## Shader variants and the platform (SDL_shaders_gles2.h collaborator)

The shader tables (`GLES2_GetShader` and the variant arrays) live in
`SDL_shaders_gles2.c`, which is not part of the sources; per the spec they
supply, for each (shader kind, blend mode), an ordered candidate list of
`GLES2_ShaderInstance`s, each tagged with a binary format. We model an
instance by its identity (a `Nat`, standing for the static table address)
and its `format` field (an `Int`, with `-1` denoting source form). -/

/-- Modelled from the spec: a shader definition as returned by
`GLES2_GetShader` — an ordered candidate list of (instance identity,
format) pairs; `none` models a NULL `instances` array (the
`if (!shader->instances) continue;` guard in `GLES2_CacheShader`). -/
structure ShaderDef where
  insts : Option (List (Nat × Int))
  deriving DecidableEq

/-- Modelled from the spec: the platform collaborators of the cache core:
`GLES2_GetShader` (shader-provisioning tables) and the renderer's
`shader_formats` list as filled in by `GLES2_CreateRenderer`. -/
structure Env where
  getShader : ShaderType → Int → Option ShaderDef
  formats : List Int

/-- The variant-selection double loop of `GLES2_CacheShader`
(lines 561-572):

```
for (i = 0; i < shader->instance_count; ++i)
    for (j = 0; j < rdata->shader_format_count; ++j) {
        if (!shader->instances) continue;
        if (shader->instances[i]->format != rdata->shader_formats[j]) continue;
        instance = shader->instances[i];
        break;          /* breaks the INNER loop only */
    }
```

The inner `break` leaves the outer loop running, so `instance` is
overwritten by every later candidate that matches some supported format:
the fold keeps the LAST matching candidate, exactly as the code does. -/
def findInstance (sh : ShaderDef) (fmts : List Int) : Option Nat :=
  match sh.insts with
  | none => none
  | some l => l.foldl (fun acc p => if fmts.contains p.2 then some p.1 else acc) none

/-! ## Cache heaps -/

/-- GLES2_ShaderCacheEntry (line 64).  The `prev`/`next` links are not
carried: the shader cache's only list operations are insert-at-head
(`GLES2_CacheShader`, lines 622-629) and unlink-one-entry
(`GLES2_EvictShader`, lines 638-645), both of which keep the doubly linked
list well formed, so the list is represented directly by the sequence of
entries in head-to-tail order.  The GPU shader handle `id` coincides with
the heap id. -/
structure SEntry where
  stype : ShaderType
  inst : Nat
  references : Int
  deriving DecidableEq

/-- GLES2_ProgramCacheEntry (line 80), with its intrusive `prev`/`next`
pointers modelled explicitly (the program cache's promotion and eviction
manipulate them in ways that can corrupt the list, so the pointer structure
must be kept). -/
structure PEntry where
  vertex : Nat
  fragment : Nat
  blend : Int
  prev : Option Nat
  next : Option Nat
  deriving DecidableEq

abbrev SHeap := List (Nat × SEntry)
abbrev PHeap := List (Nat × PEntry)

/-- Read through a pointer: the first heap cell with the given id. -/
def hget {α : Type} : List (Nat × α) → Nat → Option α
  | [], _ => none
  | (j, e) :: t, i => if j = i then some e else hget t i

/-- Overwrite the heap cell(s) with the given id. -/
def hset {α : Type} : List (Nat × α) → Nat → α → List (Nat × α)
  | [], _, _ => []
  | (k, a) :: t, i, e => if k = i then (i, e) :: hset t i e else (k, a) :: hset t i e

/-- Free the heap cell with the given id. -/
def hdel {α : Type} (h : List (Nat × α)) (i : Nat) : List (Nat × α) :=
  h.filter (fun p => p.1 ≠ i)

/-- Write through a program-entry pointer; writing to a freed entry is
undefined behaviour (`none`). -/
def pwr (h : PHeap) (i : Nat) (f : PEntry → PEntry) : Option PHeap :=
  match hget h i with
  | none => none
  | some e => some (hset h i (f e))

/-! ## Renderer cache state (the cache-relevant part of GLES2_DriverContext) -/

structure St where
  shaders : SHeap          -- shader_cache list (head first)
  shCount : Int            -- shader_cache.count
  progs : PHeap            -- heap of allocated (not yet freed) program entries
  pHead : Option Nat       -- program_cache.head
  pTail : Option Nat       -- program_cache.tail
  pCount : Int             -- program_cache.count
  current : Option Nat     -- current_program
  fresh : Nat              -- allocator: next unused id
  lastError : Option Err
  trace : List GLCmd       -- GL calls, newest first
  deriving DecidableEq

/-- A freshly created renderer's caches (`SDL_calloc` in
`GLES2_CreateRenderer` zeroes everything). -/
def initSt : St :=
  { shaders := [], shCount := 0, progs := [], pHead := none, pTail := none,
    pCount := 0, current := none, fresh := 0, lastError := none, trace := [] }

/-! ## GLES2_CacheShader (lines 542-631) -/

/-- `GLES2_CacheShader`.  Returns `some (some id, s')` for a returned entry
pointer, `some (none, s')` for a NULL return (error set), `none` for
undefined behaviour.  `allocOk` is the `SDL_calloc` outcome, `loadOk`
the combined compile/load + `glGetError` outcome. -/
def GLES2_CacheShader (env : Env) (s : St) (ty : ShaderType) (blend : Int)
    (allocOk loadOk : Bool) : Option (Option Nat × St) :=
  match env.getShader ty blend with
  | none => some (none, { s with lastError := some .unsupportedShader })
  | some sh =>
    match findInstance sh env.formats with
    | none => some (none, { s with lastError := some .unsupportedPlatform })
    | some inst =>
      -- scan the cache for an entry with this instance (pointer identity)
      match s.shaders.find? (fun p => p.2.inst = inst) with
      | some p => some (some p.1, s)
      | none =>
        if !allocOk then some (none, { s with lastError := some .outOfMemory })
        else
          let sid := s.fresh
          let s := { s with fresh := s.fresh + 1,
                            trace := .createShader sid :: s.trace }
          if !loadOk then
            some (none, { s with lastError := some .shaderCompileError,
                                 trace := .deleteShader sid :: s.trace })
          else
            some (some sid,
              { s with shaders := (sid, ⟨ty, inst, 0⟩) :: s.shaders,
                       shCount := s.shCount + 1 })

/-! ## GLES2_EvictShader (lines 633-650) -/

/-- `GLES2_EvictShader`: unlink the entry from the shader cache list,
decrement the count, `glDeleteShader`, free.  Evicting an already-freed
entry is undefined behaviour. -/
def GLES2_EvictShader (s : St) (i : Nat) : Option St :=
  match hget s.shaders i with
  | none => none
  | some _ =>
    some { s with shaders := hdel s.shaders i,
                  shCount := s.shCount - 1,
                  trace := .deleteShader i :: s.trace }

/-- `--shaderEntry->references; if (<= 0) GLES2_EvictShader(...)`
(lines 528-529 and 531-532). -/
def decRefEvict (s : St) (i : Nat) : Option St := do
  let e ← hget s.shaders i
  let refs := e.references - 1
  let s := { s with shaders := hset s.shaders i { e with references := refs } }
  if refs ≤ 0 then GLES2_EvictShader s i else pure s

/-- `++shader->references` (lines 521-522). -/
def incRef (s : St) (i : Nat) : Option St := do
  let e ← hget s.shaders i
  pure { s with shaders := hset s.shaders i { e with references := e.references + 1 } }

/-! ## GLES2_CacheProgram (lines 434-540) -/

/-- The cache-hit scan `entry = head; while (entry) { ...; entry = entry->next; }`
(lines 444-450), walking the `next` chain.  Fuel bounds the walk: if the
chain revisits ids beyond the number of live entries without reaching NULL
or a match, the C loop never terminates (`none`).  Following a dangling
`next` pointer is undefined behaviour (`none`). -/
def chainFind (h : PHeap) (pred : PEntry → Bool) : Option Nat → Nat → Option (Option Nat)
  | none, _ => some none
  | some _, 0 => none
  | some i, fuel + 1 =>
    match hget h i with
    | none => none
    | some e => if pred e then some (some i) else chainFind h pred e.next fuel

/-- The MRU promotion of a cache hit (lines 453-463), performed field read
by field read in source order:

```
if (entry->next) entry->next->prev = entry->prev;
if (entry->prev) entry->prev->next = entry->next;
entry->prev = NULL;
entry->next = rdata->program_cache.head;
rdata->program_cache.head->prev = entry;
rdata->program_cache.head = entry;
```

Note that `program_cache.tail` is NOT updated, even when `entry` is the
tail. -/
def promote (s : St) (e : Nat) : Option St := do
  let h := s.progs
  let ent ← hget h e
  let h ← match ent.next with
          | some a => pwr h a (fun x => { x with prev := ent.prev })
          | none => pure h
  let ent1 ← hget h e
  let h ← match ent1.prev with
          | some b => pwr h b (fun x => { x with next := ent1.next })
          | none => pure h
  let h ← pwr h e (fun x => { x with prev := none })
  let hd ← s.pHead
  let h ← pwr h e (fun x => { x with next := some hd })
  let h ← pwr h hd (fun x => { x with prev := some e })
  pure { s with progs := h, pHead := some e }

/-- The eviction block of `GLES2_CacheProgram` (lines 525-538), executed
when `count > GLES2_MAX_CACHED_PROGRAMS`:

```
shaderEntry = tail->vertex_shader;
if (--shaderEntry->references <= 0) GLES2_EvictShader(renderer, shaderEntry);
shaderEntry = tail->fragment_shader;
if (--shaderEntry->references <= 0) GLES2_EvictShader(renderer, shaderEntry);
glDeleteProgram(tail->id);
tail = tail->prev;
SDL_free(tail->next);          /* frees whatever the new tail's next is */
tail->next = NULL;
--count;
```

`SDL_free(NULL)` is a no-op, so a NULL `tail->next` frees nothing. -/
def evictTail (s : St) : Option St := do
  let t ← s.pTail
  let te ← hget s.progs t
  let s ← decRefEvict s te.vertex
  let te2 ← hget s.progs t
  let s ← decRefEvict s te2.fragment
  let s := { s with trace := .deleteProgram t :: s.trace }
  let te3 ← hget s.progs t
  let p ← te3.prev
  let pe ← hget s.progs p
  let s ← match pe.next with
          | some fid => do
              let _ ← hget s.progs fid
              pure { s with progs := hdel s.progs fid }
          | none => pure s
  let h ← pwr s.progs p (fun x => { x with next := none })
  pure { s with progs := h, pTail := some p, pCount := s.pCount - 1 }

/-- Linking a freshly linked program entry into the cache
(lines 507-522): head insertion, count increment, and the two shader
refcount increments. -/
def linkNewProgram (s : St) (pid v f : Nat) (blend : Int) : Option St := do
  let ne : PEntry := { vertex := v, fragment := f, blend := blend,
                       prev := none, next := none }
  let (ne, s) ← match s.pHead with
    | some hd => do
        let h ← pwr s.progs hd (fun x => { x with prev := some pid })
        pure ({ ne with next := some hd }, { s with progs := h })
    | none => pure (ne, { s with pTail := some pid })
  let s := { s with progs := (pid, ne) :: s.progs, pHead := some pid,
                    pCount := s.pCount + 1 }
  let s ← incRef s v
  let s ← incRef s f
  pure s

/-- `GLES2_CacheProgram`.  `allocOk` is the entry `SDL_calloc` outcome,
`linkOk` the combined `glGetError`/link-status outcome. -/
def GLES2_CacheProgram (s : St) (v f : Nat) (blend : Int)
    (allocOk linkOk : Bool) : Option (Option Nat × St) := do
  match chainFind s.progs (fun e => e.vertex = v && e.fragment = f)
          s.pHead (s.progs.length + 1) with
  | none => none
  | some (some e) =>
      if s.pCount > 1 then do
        let s' ← promote s e
        pure (some e, s')
      else pure (some e, s)
  | some none =>
      if !allocOk then pure (none, { s with lastError := some .outOfMemory })
      else
        let pid := s.fresh
        let s := { s with fresh := s.fresh + 1,
                          trace := .createProgram pid :: s.trace }
        if !linkOk then
          pure (none, { s with lastError := some .programLinkError,
                               trace := .deleteProgram pid :: s.trace })
        else do
          let s ← linkNewProgram s pid v f blend
          let s ← if s.pCount > 8 then evictTail s else pure s
          pure (some pid, s)

/-! ## GLES2_SelectProgram (lines 652-717) -/

/-- Per-call failure oracle: outcomes of the fallible collaborator calls
inside one `GLES2_SelectProgram` call, in program order. -/
structure Orc where
  vAllocOk : Bool
  vLoadOk : Bool
  fAllocOk : Bool
  fLoadOk : Bool
  pAllocOk : Bool
  linkOk : Bool
  useOk : Bool
  projOk : Bool
  deriving DecidableEq

/-- All collaborator calls succeed. -/
def okOrc : Orc := ⟨true, true, true, true, true, true, true, true⟩

/-- The `fault:` cleanup of `GLES2_SelectProgram` (lines 710-716):

```
if (vertex && vertex->references <= 0) GLES2_EvictShader(renderer, vertex);
if (fragment && fragment->references <= 0) GLES2_EvictShader(renderer, fragment);
rdata->current_program = NULL;
return -1;
``` -/
def selectFault (s : St) (v f : Option Nat) : Option (Int × St) := do
  let s ← match v with
    | none => pure s
    | some vi => do
        let e ← hget s.shaders vi
        if e.references ≤ 0 then GLES2_EvictShader s vi else pure s
  let s ← match f with
    | none => pure s
    | some fi => do
        let e ← hget s.shaders fi
        if e.references ≤ 0 then GLES2_EvictShader s fi else pure s
  pure (-1, { s with current := none })

/-- `GLES2_SelectProgram`.  Returns the C return code and the post-state;
`none` models undefined behaviour.  The orthographic-projection upload at
the end only touches GPU state (its matrix is verified separately), so
here it contributes its uniform-upload GL call and its failure oracle. -/
def GLES2_SelectProgram (env : Env) (s : St) (src : ImageSource) (blend : Int)
    (o : Orc) : Option (Int × St) := do
  let ftype := match src with
    | .solid => ShaderType.fragmentSolid
    | .texture => ShaderType.fragmentTexture
  let (v?, s) ← GLES2_CacheShader env s .vertexDefault blend o.vAllocOk o.vLoadOk
  match v? with
  | none => selectFault s none none
  | some v => do
    let (f?, s) ← GLES2_CacheShader env s ftype blend o.fAllocOk o.fLoadOk
    match f? with
    | none => selectFault s (some v) none
    | some f => do
      -- "Check if we need to change programs at all" (lines 682-685)
      let skip ← match s.current with
        | none => pure false
        | some c => do
            let ce ← hget s.progs c
            pure (ce.vertex = v && ce.fragment = f)
      if skip then pure (0, s)
      else do
        let (p?, s) ← GLES2_CacheProgram s v f blend o.pAllocOk o.linkOk
        match p? with
        | none => selectFault s (some v) (some f)
        | some p =>
          let s := { s with trace := .useProgram p :: s.trace }
          if !o.useOk then
            selectFault { s with lastError := some .programBindError } (some v) (some f)
          else
            let s := { s with current := some p }
            -- GLES2_SetOrthographicProjection: reads current_program's
            -- uniform location and uploads the matrix
            let _ ← hget s.progs p
            let s := { s with trace := .uniformProjection :: s.trace }
            if !o.projOk then
              selectFault { s with lastError := some .uniformUploadError } (some v) (some f)
            else pure (0, s)

/-! ## Operation sequences over the cache -/

/-- One externally driven cache operation: a `GLES2_SelectProgram` call, or
the `current_program = NULL` invalidation performed by
`GLES2_ActivateRenderer` on a context change (line 152). -/
inductive Op where
  | select (src : ImageSource) (blend : Int) (o : Orc)
  | invalidate
  deriving DecidableEq

def runOp (env : Env) (s : St) : Op → Option St
  | .select src blend o => (GLES2_SelectProgram env s src blend o).map (·.2)
  | .invalidate => some { s with current := none }

/-- Run a sequence of cache operations from the freshly created renderer. -/
def runOps (env : Env) (ops : List Op) : Option St :=
  ops.foldlM (runOp env) initSt

/-! ## GLES2_ActivateRenderer / GLES2_WindowEvent (lines 144-179)

A second, smaller model for the context/viewport binding claims: it carries
the renderer's context handle (`ctx`, never NULL since `GLES2_CreateRenderer`
fails on a NULL context), the process-wide `SDL_CurrentContext` global
(`curCtx`), the `current_program` pointer reduced to an opaque id, the
`updateSize` flag, the window size, and a GL/context call trace. -/

inductive WCmd where
  | makeCurrent (c : Nat)
  | viewport (w h : Int)
  | bindTexture
  | texSubImage (x y w h : Int)
  deriving DecidableEq

structure WSt where
  ctx : Nat
  curCtx : Option Nat
  curProg : Option Nat
  updSize : Bool
  winW : Int
  winH : Int
  trace : List WCmd
  deriving DecidableEq

inductive WinEv where
  | resized
  | other
  deriving DecidableEq

/-- `GLES2_WindowEvent`: on `SDL_WINDOWEVENT_RESIZED`, clear the tracked
current context and set the resize flag; otherwise do nothing.  No GPU
call is issued. -/
def GLES2_WindowEvent (s : WSt) : WinEv → WSt
  | .resized => { s with curCtx := none, updSize := true }
  | .other => s

/-- `GLES2_ActivateRenderer`: if the tracked current context differs from
the renderer's, null the current program and make the renderer's context
current (`mkOk` is the `SDL_GL_MakeCurrent` outcome); then, if a resize
was flagged, re-query the window size, set the viewport, and clear the
flag.  Returns the C return code with the post-state. -/
def GLES2_ActivateRenderer (s : WSt) (mkOk : Bool) : Int × WSt :=
  if s.curCtx ≠ some s.ctx then
    let s1 : WSt := { s with curProg := none,
                             trace := .makeCurrent s.ctx :: s.trace }
    if !mkOk then (-1, s1)
    else
      let s2 : WSt := { s1 with curCtx := some s.ctx }
      (0, syncSize s2)
  else (0, syncSize s)
where
  /-- the `if (rdata->updateSize)` block (lines 159-165) -/
  syncSize (s : WSt) : WSt :=
    if s.updSize then
      { s with trace := .viewport s.winW s.winH :: s.trace, updSize := false }
    else s

def countViewport (tr : List WCmd) : Nat :=
  tr.countP (fun c => match c with | .viewport _ _ => true | _ => false)

/-! ## GLES2_UpdateTexture (lines 335-417) -/

/-- GLES2_TextureData together with the SDL_Texture fields the function
reads.  Images are modelled as total functions from (row, column) to texel
value; the byte-exact pitch arithmetic of the C code only addresses rows
and columns, which this representation indexes directly. -/
structure Tex where
  w : Int
  h : Int
  gpu : Int → Int → Int             -- the GL texture storage
  hasBuf : Bool                     -- pixel_data != NULL (streaming texture)
  buf : Int → Int → Int             -- the streaming pixel buffer

structure Rect where
  x : Int
  y : Int
  w : Int
  h : Int
  deriving DecidableEq

/-- Overwrite the rectangle `r` of `img` with the source pixels `pix`
(source indexed from the rectangle origin). -/
def writeRegion (img : Int → Int → Int) (r : Rect) (pix : Int → Int → Int) :
    Int → Int → Int :=
  fun y x =>
    if r.y ≤ y ∧ y < r.y + r.h ∧ r.x ≤ x ∧ x < r.x + r.w then
      pix (y - r.y) (x - r.x)
    else img y x

/-- `GLES2_UpdateTexture`.  `mkOk` feeds the (ignored) activation,
`blobOk` is the repack-blob `SDL_malloc` outcome (consulted only when
`pitch` differs from the tight pitch `rect->w * bpp`), `subOk` the
`glTexSubImage2D` error query.  Returns `(code, renderer-state, texture)`.

The C control flow: activate renderer (result ignored), bail out with 0 on
an empty rectangle, repack into a tight blob if the pitch differs, upload
the subimage, mirror it into the streaming buffer if present. -/
def GLES2_UpdateTexture (s : WSt) (t : Tex) (r : Rect)
    (pix : Int → Int → Int) (pitch : Int)
    (mkOk blobOk subOk : Bool) : Option (Int × WSt × Tex) :=
  let s := (GLES2_ActivateRenderer s mkOk).2
  if r.w ≤ 0 ∨ r.h ≤ 0 then some (0, s, t)
  else
    let srcPitch := r.w * 4      -- SDL_BYTESPERPIXEL(SDL_PIXELFORMAT_ABGR8888)
    if pitch ≠ srcPitch ∧ !blobOk then some (-1, s, t)   -- SDL_OutOfMemory
    else
      let s := { s with trace := .texSubImage r.x r.y r.w r.h :: .bindTexture :: s.trace }
      let t := { t with gpu := writeRegion t.gpu r pix }
      if !subOk then some (-1, s, t)
      else
        let t := if t.hasBuf then { t with buf := writeRegion t.buf r pix } else t
        some (0, s, t)

/-! ## GLES2_SetBlendMode (lines 790-812) -/

/-- SDL 1.3 blend-mode constants (SDL_video.h, not under src; the claims
only rely on the three recognised values being distinct). -/
def SDL_BLENDMODE_NONE : Int := 0
def SDL_BLENDMODE_BLEND : Int := 2
def SDL_BLENDMODE_ADD : Int := 4
def SDL_BLENDMODE_MOD : Int := 8

/-- The GL blend configuration established by `GLES2_SetBlendMode`:
either `glDisable(GL_BLEND)` or `glEnable(GL_BLEND)` plus a
`glBlendFunc(src, dst)` factor pair. -/
inductive BlendCfg where
  | disabled
  | enabled (src dst : Nat)
  deriving DecidableEq

def GL_ZERO : Nat := 0
def GL_ONE : Nat := 1
def GL_SRC_COLOR : Nat := 0x0300
def GL_SRC_ALPHA : Nat := 0x0302
def GL_ONE_MINUS_SRC_ALPHA : Nat := 0x0303

/-- `GLES2_SetBlendMode`: the C `switch` with `SDL_BLENDMODE_NONE` and
`default` sharing the `glDisable(GL_BLEND)` arm. -/
def GLES2_SetBlendMode (blendMode : Int) : BlendCfg :=
  if blendMode = SDL_BLENDMODE_BLEND then
    .enabled GL_SRC_ALPHA GL_ONE_MINUS_SRC_ALPHA
  else if blendMode = SDL_BLENDMODE_ADD then
    .enabled GL_SRC_ALPHA GL_ONE
  else if blendMode = SDL_BLENDMODE_MOD then
    .enabled GL_ZERO GL_SRC_COLOR
  else
    .disabled

/-! ## GLES2_SetOrthographicProjection (lines 719-759)

The matrix is built over `ℚ`; `projection i j` is the C array element
`projection[i][j]`, and the data is handed to `glUniformMatrix4fv` in
column-major order, so `projection[i]` is column `i` of the matrix. -/

/-- The projection array of `GLES2_SetOrthographicProjection`
(lines 732-747), entry for entry. -/
def projection (w h : ℚ) : Fin 4 → Fin 4 → ℚ
  | 0, 0 => 2 / w
  | 1, 1 => -2 / h
  | 2, 2 => 1
  | 3, 0 => -1
  | 3, 1 => 1
  | 3, 3 => 1
  | _, _ => 0

/-- Applying the column-major matrix to the homogeneous pixel position
`(x, y, 0, 1)`: NDC component `r` is `Σ c, projection[c][r] * v[c]`.
Returns the (x, y) NDC pair. -/
def ndcOf (w h x y : ℚ) : ℚ × ℚ :=
  (projection w h 0 0 * x + projection w h 1 0 * y + projection w h 2 0 * 0 +
     projection w h 3 0 * 1,
   projection w h 0 1 * x + projection w h 1 1 * y + projection w h 2 1 * 0 +
     projection w h 3 1 * 1)

/-! ## GLES2_CreateRenderer (lines 1071-1171), allocation paths

Only the control flow up to the shader-format query matters to the claims;
the oracle fields are the outcomes of the fallible calls in program order.
The result is `none` for undefined behaviour, `some (none, err?)` for a
NULL return (with the error that was reported, if any), and
`some (some ctx, none)` for success. -/

structure COrc where
  rendererOk : Bool      -- SDL_calloc of the SDL_Renderer
  rdataOk : Bool         -- SDL_calloc of the GLES2_DriverContext
  ctxOk : Bool           -- SDL_GL_CreateContext
  mkOk : Bool            -- SDL_GL_MakeCurrent
  fmtAllocOk : Bool      -- SDL_calloc of shader_formats
  getFmtOk : Bool        -- glGetIntegerv(GL_SHADER_BINARY_FORMATS) error query
  deriving DecidableEq

/-- `GLES2_CreateRenderer`:

```
renderer = SDL_calloc(...);
rdata = SDL_calloc(...);
if (!renderer) { SDL_OutOfMemory(); ...; return NULL; }   /* rdata NOT checked */
renderer->driverdata = rdata;  ...
rdata->context = SDL_GL_CreateContext(window);            /* writes through rdata */
...
```

When `rdata` is NULL but `renderer` is not, the write
`rdata->context = ...` dereferences a NULL pointer: undefined behaviour. -/
def GLES2_CreateRenderer (o : COrc) : Option (Option Nat × Option Err) :=
  if !o.rendererOk then some (none, some .outOfMemory)
  else if !o.rdataOk then none
  else if !o.ctxOk then some (none, none)
  else if !o.mkOk then some (none, none)
  else if !o.fmtAllocOk then some (none, some .outOfMemory)
  else if !o.getFmtOk then some (none, none)   -- "Failed to query supported shader formats"
  else some (some 1, none)

/-! ## The cache invariant

`refCountOf h i` counts, over the allocated program entries, the
references to shader entry `i` (vertex and fragment slots counted
separately, as `GLES2_CacheProgram` increments once per slot). -/

def refCountOf (h : PHeap) (i : Nat) : Int :=
  (h.countP (fun p => p.2.vertex = i) : Int) +
  (h.countP (fun p => p.2.fragment = i) : Int)

/-- The inductive invariant of the cache state machine.  `refEq` and
`refPos` are the claim-facing parts: a shader entry's `references` field
equals the number of allocated program entries referencing it, and no
shader entry survives an operation with zero references (a zero-reference
shader is evicted within the same operation).  The remaining fields are
the strengthening needed for induction: allocator freshness, key
uniqueness, the back-link/forward-link consistency of the program list
(`backlink`), liveness of referenced shaders, the `count` fields agreeing
with the number of allocated entries, instance uniqueness in the shader
cache, and `current_program` pointing at the live list head. -/
structure CacheCoreInv (s : St) : Prop where
  nodupP : (s.progs.map Prod.fst).Nodup
  nodupS : (s.shaders.map Prod.fst).Nodup
  freshP : ∀ i e, hget s.progs i = some e → i < s.fresh
  freshS : ∀ i e, hget s.shaders i = some e → i < s.fresh
  ptrFresh : ∀ i e, hget s.progs i = some e →
    (∀ q, e.prev = some q → q < s.fresh) ∧ (∀ q, e.next = some q → q < s.fresh)
  backlink : ∀ y ey x ex, hget s.progs y = some ey → ey.prev = some x →
    hget s.progs x = some ex → ex.next = some y
  shadersLive : ∀ i e, hget s.progs i = some e →
    (hget s.shaders e.vertex).isSome ∧ (hget s.shaders e.fragment).isSome
  refEq : ∀ i e, hget s.shaders i = some e → e.references = refCountOf s.progs i
  pCountEq : s.pCount = s.progs.length
  shCountEq : s.shCount = s.shaders.length
  instUniq : ∀ i ei j ej, hget s.shaders i = some ei → hget s.shaders j = some ej →
    ei.inst = ej.inst → i = j
  headNone : s.pHead = none → s.progs = []
  tailFresh : ∀ t, s.pTail = some t → t < s.fresh

/-- The full invariant: the core bookkeeping, plus the two properties the
operations re-establish only at their boundaries: every cached shader is
referenced by at least one program (a shader whose reference count reaches
zero is evicted within the same operation), and `current_program` (when
set) is the live head of the program list. -/
structure CacheInv (s : St) : Prop where
  core : CacheCoreInv s
  refPos : ∀ i e, hget s.shaders i = some e → 1 ≤ e.references
  curHead : ∀ c, s.current = some c → s.pHead = some c ∧ (hget s.progs c).isSome

/-! ## Concrete fixtures

A platform environment with one shared vertex variant and one
solid-fragment variant per blend mode, all in binary format `0`, which the
platform supports.  This mirrors the real shader tables' shape (the default
vertex shader is shared by every blend mode). -/

def env1 : Env :=
  { getShader := fun ty b =>
      match ty with
      | .vertexDefault => some ⟨some [(50, 0)]⟩
      | .fragmentSolid => some ⟨some [(100 + b.toNat, 0)]⟩
      | .fragmentTexture => some ⟨some [(200 + b.toNat, 0)]⟩,
    formats := [0] }

/-- Eight `GLES2_SelectProgram` calls with distinct (vertex, fragment)
pairs filling the program cache, a ninth call hitting the tail pair
(blend 1), whose entry is promoted to the head, and a tenth call inserting
a ninth distinct pair, which triggers the eviction. -/
def ops1 : List Op :=
  [.select .solid 1 okOrc, .select .solid 2 okOrc, .select .solid 3 okOrc,
   .select .solid 4 okOrc, .select .solid 5 okOrc, .select .solid 6 okOrc,
   .select .solid 7 okOrc, .select .solid 8 okOrc,
   .select .solid 1 okOrc,
   .select .solid 9 okOrc]

/-- A short operation sequence for witnesses: two selects with a cache hit
and an invalidation in between. -/
def opsW : List Op :=
  [.select .solid 1 okOrc, .invalidate, .select .texture 1 okOrc]

/-- The (defined) state reached by `opsW` under `env1`. -/
def stW : St := (runOps env1 opsW).get (by decide)

/-- The state after one successful `GLES2_SelectProgram` from the fresh
renderer (used to witness the repeated-selection claim). -/
def stC5 : St :=
  ((GLES2_SelectProgram env1 initSt .solid 1 okOrc).get (by decide)).2

/-- A platform whose supported-format list is empty: no candidate variant
of any shader matches, and no runtime compiler (format `-1`) is
advertised. -/
def env6 : Env :=
  { getShader := fun ty b =>
      match ty with
      | .vertexDefault => some ⟨some [(50, 0)]⟩
      | .fragmentSolid => some ⟨some [(100 + b.toNat, 0)]⟩
      | .fragmentTexture => some ⟨some [(200 + b.toNat, 0)]⟩,
    formats := [] }

/-- A shader definition with two candidate variants whose formats are both
supported (both tagged format `5`). -/
def twoCandidates : ShaderDef := ⟨some [(0, 5), (1, 5)]⟩

/-- Window-binding state used for the resize counterexample: the
renderer's context is the tracked current context, a program is bound. -/
def wst0 : WSt :=
  { ctx := 1, curCtx := some 1, curProg := some 5, updSize := false,
    winW := 640, winH := 480, trace := [] }

/-- Texture fixture for the empty-rectangle update claims. -/
def tex0 : Tex :=
  { w := 4, h := 4, gpu := fun _ _ => 0, hasBuf := true, buf := fun _ _ => 7 }

/-- Window-binding state with a pending resize flag (used for the
empty-rectangle update counterexample: the activation prelude issues the
pending `glViewport`). -/
def wst1 : WSt :=
  { ctx := 1, curCtx := some 1, curProg := none, updSize := true,
    winW := 320, winH := 200, trace := [] }

/-! ## Characterization of the MRU promotion

`promoteSpec ent hd i x` is the final value of program entry `i` (old
value `x`) after promoting entry `e` (old fields `ent`) with old list head
`hd`: `hd` gets back-pointer `e`, `e` moves to the front (`prev := none`,
`next := hd`), the old neighbours of `e` are linked to each other, and
everything else is untouched.  The writes resolve in this priority order
because the C statements run in source order. -/
def promoteSpec (e : Nat) (ent : PEntry) (hd : Nat) (i : Nat) (x : PEntry) : PEntry :=
  { x with
    prev := if i = hd then some e else if i = e then none
            else if ent.next = some i then ent.prev else x.prev,
    next := if i = e then some hd
            else if ent.prev = some i then ent.next else x.next }

/-- The effect of the first two promotion statements (unlinking `e` from
its neighbours): entry `i`'s `prev` is rewritten when it was `e`'s
successor, its `next` when it was `e`'s predecessor. -/
def unlinkSpec (ent : PEntry) (i : Nat) (x : PEntry) : PEntry :=
  { x with
    prev := if ent.next = some i then ent.prev else x.prev,
    next := if ent.prev = some i then ent.next else x.next }

/-! # Lemma kit for the heap helpers -/

section HeapLemmas

variable {α : Type}

theorem hget_nil (i : Nat) : hget ([] : List (Nat × α)) i = none := rfl

theorem hget_cons (j : Nat) (e : α) (t : List (Nat × α)) (i : Nat) :
    hget ((j, e) :: t) i = if j = i then some e else hget t i := rfl

theorem hget_hset (h : List (Nat × α)) (j : Nat) (e : α) (i : Nat) :
    hget (hset h j e) i = if j = i then (hget h j).map (fun _ => e) else hget h i := by
  induction h with
  | nil => simp [hget, hset]
  | cons p t ih =>
    obtain ⟨k, a⟩ := p
    by_cases hkj : k = j
    · subst hkj
      by_cases hki : k = i <;> simp [hget, hset, hki, ih]
    · by_cases hki : k = i
      · subst hki
        simp [hget, hset, hkj, ih, Ne.symm hkj]
      · simp [hget, hset, hkj, hki, ih]

theorem hget_hset_self {h : List (Nat × α)} {i : Nat} {e' : α} (e : α)
    (hs : hget h i = some e') : hget (hset h i e) i = some e := by
  simp [hget_hset, hs]

theorem hget_hset_ne (h : List (Nat × α)) (e : α) {j i : Nat} (hne : j ≠ i) :
    hget (hset h j e) i = hget h i := by
  simp [hget_hset, hne]

theorem hdel_cons (k : Nat) (a : α) (t : List (Nat × α)) (j : Nat) :
    hdel ((k, a) :: t) j = if k = j then hdel t j else (k, a) :: hdel t j := by
  by_cases hkj : k = j <;> simp [hdel, List.filter_cons, hkj]

theorem hget_hdel (h : List (Nat × α)) (j i : Nat) :
    hget (hdel h j) i = if j = i then none else hget h i := by
  induction h with
  | nil => simp [hget, hdel]
  | cons p t ih =>
    obtain ⟨k, a⟩ := p
    rw [hdel_cons]
    by_cases hkj : k = j
    · subst hkj
      rw [if_pos rfl, ih]
      by_cases hki : k = i
      · simp [hki]
      · simp [hget_cons, hki]
    · rw [if_neg hkj, hget_cons]
      by_cases hki : k = i
      · subst hki
        rw [if_pos rfl, if_neg (fun h' => hkj h'.symm), hget_cons, if_pos rfl]
      · rw [if_neg hki, ih, hget_cons, if_neg hki]

theorem hset_map_fst (h : List (Nat × α)) (j : Nat) (e : α) :
    (hset h j e).map Prod.fst = h.map Prod.fst := by
  induction h with
  | nil => rfl
  | cons p t ih =>
    obtain ⟨k, a⟩ := p
    by_cases hkj : k = j <;> simp [hset, hkj, ih]

theorem hset_length (h : List (Nat × α)) (j : Nat) (e : α) :
    (hset h j e).length = h.length := by
  induction h with
  | nil => rfl
  | cons p t ih =>
    obtain ⟨k, a⟩ := p
    by_cases hkj : k = j <;> simp [hset, hkj, ih]

theorem hget_isSome_iff_mem {h : List (Nat × α)} {i : Nat} :
    (hget h i).isSome ↔ i ∈ h.map Prod.fst := by
  induction h with
  | nil => simp [hget]
  | cons p t ih =>
    obtain ⟨k, a⟩ := p
    by_cases hki : k = i
    · subst hki
      simp [hget_cons]
    · rw [hget_cons, if_neg hki, List.map_cons, ih]
      simp only [List.mem_cons]
      constructor
      · exact Or.inr
      · rintro (h | h)
        · exact absurd h.symm hki
        · exact h

theorem hget_eq_none_of_not_mem {h : List (Nat × α)} {i : Nat}
    (hi : i ∉ h.map Prod.fst) : hget h i = none := by
  cases hg : hget h i with
  | none => rfl
  | some e => exact absurd (hget_isSome_iff_mem.mp (by simp [hg])) hi

theorem mem_of_hget {h : List (Nat × α)} {i : Nat} {e : α}
    (hg : hget h i = some e) : (i, e) ∈ h := by
  induction h with
  | nil => simp [hget] at hg
  | cons p t ih =>
    obtain ⟨k, a⟩ := p
    by_cases hki : k = i
    · subst hki
      simp [hget] at hg
      simp [hg]
    · simp [hget, hki] at hg
      exact List.mem_cons_of_mem _ (ih hg)

theorem hget_of_mem {h : List (Nat × α)} {i : Nat} {e : α}
    (nd : (h.map Prod.fst).Nodup) (hm : (i, e) ∈ h) : hget h i = some e := by
  induction h with
  | nil => simp at hm
  | cons p t ih =>
    obtain ⟨k, a⟩ := p
    rcases List.mem_cons.mp hm with heq | hmt
    · cases heq
      simp [hget]
    · have hki : k ≠ i := by
        intro hk
        subst hk
        exact (List.nodup_cons.mp nd).1 (List.mem_map.mpr ⟨(k, e), hmt, rfl⟩)
      simp [hget, hki]
      exact ih (List.nodup_cons.mp nd).2 hmt

theorem hget_decomp {h : List (Nat × α)} {j : Nat} {ej : α}
    (nd : (h.map Prod.fst).Nodup) (hg : hget h j = some ej) :
    ∃ l1 l2, h = l1 ++ (j, ej) :: l2 ∧ j ∉ l1.map Prod.fst ∧ j ∉ l2.map Prod.fst := by
  induction h with
  | nil => simp [hget] at hg
  | cons p t ih =>
    obtain ⟨k, a⟩ := p
    rw [List.map_cons] at nd
    by_cases hkj : k = j
    · subst hkj
      simp [hget] at hg
      subst hg
      exact ⟨[], t, rfl, by simp, (List.nodup_cons.mp nd).1⟩
    · simp [hget, hkj] at hg
      obtain ⟨l1, l2, rfl, h1, h2⟩ := ih (List.nodup_cons.mp nd).2 hg
      refine ⟨(k, a) :: l1, l2, rfl, ?_, h2⟩
      simp only [List.map_cons, List.mem_cons]
      rintro (h' | h')
      · exact hkj h'.symm
      · exact h1 h'

theorem hset_append (l1 l2 : List (Nat × α)) (j : Nat) (e : α) :
    hset (l1 ++ l2) j e = hset l1 j e ++ hset l2 j e := by
  induction l1 with
  | nil => rfl
  | cons p t ih =>
    obtain ⟨k, a⟩ := p
    by_cases hkj : k = j <;> simp [hset, hkj, ih]

theorem hset_not_mem {h : List (Nat × α)} {j : Nat} (e : α)
    (hj : j ∉ h.map Prod.fst) : hset h j e = h := by
  induction h with
  | nil => rfl
  | cons p t ih =>
    obtain ⟨k, a⟩ := p
    have hkj : k ≠ j := fun hk => hj (by simp [hk])
    have hjt : j ∉ t.map Prod.fst := fun hm => hj (by simp [hm])
    simp [hset, hkj, ih hjt]

theorem hdel_append (l1 l2 : List (Nat × α)) (j : Nat) :
    hdel (l1 ++ l2) j = hdel l1 j ++ hdel l2 j := by
  simp [hdel, List.filter_append]

theorem hdel_not_mem {h : List (Nat × α)} {j : Nat}
    (hj : j ∉ h.map Prod.fst) : hdel h j = h := by
  induction h with
  | nil => rfl
  | cons p t ih =>
    obtain ⟨k, a⟩ := p
    have hkj : k ≠ j := fun hk => hj (by simp [hk])
    have hjt : j ∉ t.map Prod.fst := fun hm => hj (by simp [hm])
    rw [hdel_cons, if_neg hkj, ih hjt]

theorem hdel_length {h : List (Nat × α)} {j : Nat} {ej : α}
    (nd : (h.map Prod.fst).Nodup) (hg : hget h j = some ej) :
    (hdel h j).length + 1 = h.length := by
  obtain ⟨l1, l2, rfl, h1, h2⟩ := hget_decomp nd hg
  rw [hdel_append, hdel_not_mem h1]
  have : hdel ((j, ej) :: l2) j = l2 := by
    rw [hdel_cons, if_pos rfl, hdel_not_mem h2]
  rw [this]
  simp [List.length_append]
  omega

theorem hdel_nodup {h : List (Nat × α)} {j : Nat}
    (nd : (h.map Prod.fst).Nodup) : ((hdel h j).map Prod.fst).Nodup :=
  nd.sublist ((List.filter_sublist h).map Prod.fst)

end HeapLemmas

/-! ## Reference-count bookkeeping lemmas -/

theorem refCountOf_nil (i : Nat) : refCountOf [] i = 0 := rfl

theorem refCountOf_cons (j : Nat) (e : PEntry) (h : PHeap) (i : Nat) :
    refCountOf ((j, e) :: h) i = refCountOf h i
      + (if e.vertex = i then 1 else 0) + (if e.fragment = i then 1 else 0) := by
  by_cases hv : e.vertex = i <;> by_cases hf : e.fragment = i <;>
    simp [refCountOf, List.countP_cons, hv, hf] <;> ring

theorem refCountOf_append (l1 l2 : PHeap) (i : Nat) :
    refCountOf (l1 ++ l2) i = refCountOf l1 i + refCountOf l2 i := by
  simp [refCountOf, List.countP_append]
  ring

theorem refCountOf_nonneg (h : PHeap) (i : Nat) : 0 ≤ refCountOf h i := by
  have h1 : (0 : Int) ≤ (h.countP (fun p => p.2.vertex = i) : Int) := Int.natCast_nonneg _
  have h2 : (0 : Int) ≤ (h.countP (fun p => p.2.fragment = i) : Int) := Int.natCast_nonneg _
  simp only [refCountOf]
  omega

/-- Rewriting an entry without changing its shader fields leaves every
reference count unchanged. -/
theorem refCountOf_hset_core {h : PHeap} {j : Nat} {ej : PEntry} (e' : PEntry)
    (nd : (h.map Prod.fst).Nodup) (hg : hget h j = some ej)
    (hv : e'.vertex = ej.vertex) (hf : e'.fragment = ej.fragment) (i : Nat) :
    refCountOf (hset h j e') i = refCountOf h i := by
  obtain ⟨l1, l2, rfl, h1, h2⟩ := hget_decomp nd hg
  rw [hset_append, hset_not_mem e' h1]
  have : hset ((j, ej) :: l2) j e' = (j, e') :: l2 := by
    simp [hset, hset_not_mem e' h2]
  rw [this, refCountOf_append, refCountOf_append, refCountOf_cons, refCountOf_cons, hv, hf]

/-- Freeing a program entry removes exactly its own contributions from
every reference count. -/
theorem refCountOf_hdel {h : PHeap} {j : Nat} {ej : PEntry}
    (nd : (h.map Prod.fst).Nodup) (hg : hget h j = some ej) (i : Nat) :
    refCountOf (hdel h j) i = refCountOf h i
      - (if ej.vertex = i then 1 else 0) - (if ej.fragment = i then 1 else 0) := by
  obtain ⟨l1, l2, rfl, h1, h2⟩ := hget_decomp nd hg
  rw [hdel_append, hdel_not_mem h1]
  have : hdel ((j, ej) :: l2) j = l2 := by
    rw [hdel_cons, if_pos rfl, hdel_not_mem h2]
  rw [this, refCountOf_append, refCountOf_append, refCountOf_cons]
  ring

/-- A fresh entry (one no allocated program can reference) has reference
count zero. -/
theorem refCountOf_eq_zero_of_fresh {h : PHeap} {n : Nat}
    (hfresh : ∀ p ∈ h, p.2.vertex < n ∧ p.2.fragment < n) :
    refCountOf h n = 0 := by
  induction h with
  | nil => rfl
  | cons p t ih =>
    obtain ⟨j, e⟩ := p
    have he := hfresh (j, e) (List.mem_cons_self _ _)
    have ht : ∀ p ∈ t, p.2.vertex < n ∧ p.2.fragment < n :=
      fun p hp => hfresh p (List.mem_cons_of_mem _ hp)
    rw [refCountOf_cons, ih ht, if_neg (by simp at he; omega), if_neg (by simp at he; omega)]
    ring

/-! ## Chain-walk lemmas -/

theorem chainFind_some {h : PHeap} {pred : PEntry → Bool} {start : Option Nat}
    {fuel : Nat} {i : Nat}
    (hc : chainFind h pred start fuel = some (some i)) :
    ∃ e, hget h i = some e ∧ pred e := by
  induction fuel generalizing start with
  | zero =>
    cases start with
    | none => simp [chainFind] at hc
    | some j => simp [chainFind] at hc
  | succ n ih =>
    cases start with
    | none => simp [chainFind] at hc
    | some j =>
      cases hg : hget h j with
      | none =>
        simp only [chainFind, hg] at hc
        exact absurd hc (by simp)
      | some e =>
        simp only [chainFind, hg] at hc
        by_cases hp : pred e
        · rw [if_pos hp] at hc
          simp at hc
          subst hc
          exact ⟨e, hg, hp⟩
        · rw [if_neg hp] at hc
          exact ih hc

/-- In a heap with at most one cell, a successful chain search must have
found the start of the chain. -/
theorem mem_len_le_one {l : List Nat} (hlen : l.length ≤ 1) {i j : Nat}
    (hi : i ∈ l) (hj : j ∈ l) : i = j := by
  match l, hlen with
  | [], _ => simp at hi
  | [a], _ =>
    simp at hi hj
    omega

theorem chainFind_small {h : PHeap} (hlen : h.length ≤ 1) {pred : PEntry → Bool}
    {start : Option Nat} {fuel : Nat} {i : Nat}
    (hc : chainFind h pred start fuel = some (some i)) : start = some i := by
  obtain ⟨e, hg, hp⟩ := chainFind_some hc
  cases start with
  | none => simp [chainFind] at hc
  | some j =>
    cases fuel with
    | zero => simp [chainFind] at hc
    | succ n =>
      cases hgj : hget h j with
      | none =>
        simp only [chainFind, hgj] at hc
        exact absurd hc (by simp)
      | some ej =>
        have hlen' : (h.map Prod.fst).length ≤ 1 := by
          rw [List.length_map]
          exact hlen
        have hij : j = i :=
          mem_len_le_one hlen' (hget_isSome_iff_mem.mp (by simp [hgj]))
            (hget_isSome_iff_mem.mp (by simp [hg]))
        rw [hij]

/-! # Claim C3: shader-variant selection order -/

/-- The fold underlying `findInstance` keeps the LAST candidate matching
any supported format: it equals the first match of the reversed list. -/
theorem foldl_find_rev (c : Nat × Int → Bool) (l : List (Nat × Int)) (acc : Option Nat) :
    l.foldl (fun a p => if c p then some p.1 else a) acc
      = match l.reverse.find? c with
        | some p => some p.1
        | none => acc := by
  induction l generalizing acc with
  | nil => simp
  | cons q t ih =>
    rw [List.foldl_cons, ih]
    rw [List.reverse_cons, List.find?_append]
    cases hf : t.reverse.find? c with
    | some p => simp [hf]
    | none =>
      by_cases hc : c q <;> simp [hf, hc, List.find?]

/-- C3 counterexample: with two candidate variants at indices 0 < 1, both
tagged with the supported format 5, `GLES2_CacheShader`'s selection loop
picks the variant at index 1 (instance identity 1), not the one at index 0
as the claim states ("first match wins"). -/
theorem C3_counterexample :
    twoCandidates.insts = some [(0, 5), (1, 5)] ∧
    ([5] : List Int).contains (5 : Int) = true ∧
    findInstance twoCandidates [5] = some 1 ∧
    findInstance twoCandidates [5] ≠ some 0 := by decide

/-- C3 (amended): for every shader kind and blend mode,
`GLES2_CacheShader` selects the LAST shader variant in candidate-list
order that matches a supported platform format (the inner `break` of the
selection loop exits only the format loop, so later matching candidates
overwrite earlier ones); equivalently, the selected variant is the first
match of the reversed candidate list. -/
theorem C3_theorem (sh : ShaderDef) (l : List (Nat × Int)) (fmts : List Int)
    (hsh : sh.insts = some l) :
    findInstance sh fmts
      = (l.reverse.find? (fun q => fmts.contains q.2)).map (·.1) := by
  simp only [findInstance, hsh]
  rw [foldl_find_rev]
  cases hf : l.reverse.find? (fun q => fmts.contains q.2) <;> simp [hf]

/-- C3 witness: the amended selection rule evaluated on the two-candidate
table. -/
theorem C3_witness :
    findInstance twoCandidates [5]
      = (([(0, 5), (1, 5)] : List (Nat × Int)).reverse.find?
          (fun q => ([5] : List Int).contains q.2)).map (·.1) :=
  C3_theorem twoCandidates [(0, 5), (1, 5)] [5] rfl

/-! # Claim C4: resize followed by bind -/

/-- C4 counterexample: in state `wst0` the renderer's context (`1`) IS the
context that was current before the resize event (`some 1`), yet after the
resize event and a successful bind the active-program tracker has been
invalidated (`curProg = none`, where it was `some 5`): the claim's "only
if the context handle differs from the pre-resize current context" is
false, because `GLES2_WindowEvent` unconditionally clears
`SDL_CurrentContext`, so the next `GLES2_ActivateRenderer` always takes
the rebind path. -/
theorem C4_counterexample :
    wst0.ctx = 1 ∧ wst0.curCtx = some 1 ∧ wst0.curProg = some 5 ∧
    (GLES2_ActivateRenderer (GLES2_WindowEvent wst0 .resized) true).2.curProg = none := by
  decide

/-- C4 (amended): after a resize window event followed by a successful
bind, the viewport is re-synchronized to the window size exactly once (one
`glViewport` call, and the `updateSize` flag is consumed, so a second bind
issues no further viewport call and is a complete no-op) — but the
active-program tracker is invalidated unconditionally, not only when the
renderer's context differs from the pre-resize current context, because
the resize event clears the tracked current context. -/
theorem C4_theorem (s : WSt) :
    (GLES2_ActivateRenderer (GLES2_WindowEvent s .resized) true).1 = 0 ∧
    (GLES2_ActivateRenderer (GLES2_WindowEvent s .resized) true).2.curProg = none ∧
    (GLES2_ActivateRenderer (GLES2_WindowEvent s .resized) true).2.updSize = false ∧
    countViewport (GLES2_ActivateRenderer (GLES2_WindowEvent s .resized) true).2.trace
      = countViewport s.trace + 1 ∧
    (GLES2_ActivateRenderer
        (GLES2_ActivateRenderer (GLES2_WindowEvent s .resized) true).2 true).2
      = (GLES2_ActivateRenderer (GLES2_WindowEvent s .resized) true).2 := by
  simp [GLES2_WindowEvent, GLES2_ActivateRenderer, GLES2_ActivateRenderer.syncSize,
        countViewport, List.countP_cons]

/-- C4 witness: the amended behaviour on the concrete state `wst0`. -/
theorem C4_witness :
    (GLES2_ActivateRenderer (GLES2_WindowEvent wst0 .resized) true).1 = 0 ∧
    (GLES2_ActivateRenderer (GLES2_WindowEvent wst0 .resized) true).2.curProg = none ∧
    (GLES2_ActivateRenderer (GLES2_WindowEvent wst0 .resized) true).2.updSize = false ∧
    countViewport (GLES2_ActivateRenderer (GLES2_WindowEvent wst0 .resized) true).2.trace
      = countViewport wst0.trace + 1 ∧
    (GLES2_ActivateRenderer
        (GLES2_ActivateRenderer (GLES2_WindowEvent wst0 .resized) true).2 true).2
      = (GLES2_ActivateRenderer (GLES2_WindowEvent wst0 .resized) true).2 :=
  C4_theorem wst0

/-! # Claim C7: orthographic projection matrix -/

/-- C7: for `w, h > 0`, `GLES2_SetOrthographicProjection` builds exactly
the column-major matrix claimed (`2/w`, `-2/h`, ones, translation
`(-1, 1)`, zeros elsewhere), and for the 800×600 window this matrix maps
pixel (0,0) to NDC (-1, 1) and pixel (800,600) to NDC (1, -1).  The float
arithmetic is modelled over `ℚ`; every entry and both corner evaluations
are exact. -/
theorem C7_theorem (w h : ℚ) (hw : 0 < w) (hh : 0 < h) :
    projection w h 0 0 = 2 / w ∧ projection w h 0 1 = 0 ∧
    projection w h 0 2 = 0 ∧ projection w h 0 3 = 0 ∧
    projection w h 1 0 = 0 ∧ projection w h 1 1 = -2 / h ∧
    projection w h 1 2 = 0 ∧ projection w h 1 3 = 0 ∧
    projection w h 2 0 = 0 ∧ projection w h 2 1 = 0 ∧
    projection w h 2 2 = 1 ∧ projection w h 2 3 = 0 ∧
    projection w h 3 0 = -1 ∧ projection w h 3 1 = 1 ∧
    projection w h 3 2 = 0 ∧ projection w h 3 3 = 1 ∧
    ndcOf 800 600 0 0 = (-1, 1) ∧
    ndcOf 800 600 800 600 = (1, -1) := by
  refine ⟨rfl, rfl, rfl, rfl, rfl, rfl, rfl, rfl, rfl, rfl, rfl, rfl, rfl, rfl, rfl, rfl, ?_, ?_⟩
  · norm_num [ndcOf, projection]
  · norm_num [ndcOf, projection]

/-- C7 witness: the matrix and corner mappings at the 800×600 window. -/
theorem C7_witness :
    projection 800 600 0 0 = 2 / 800 ∧ projection 800 600 0 1 = 0 ∧
    projection 800 600 0 2 = 0 ∧ projection 800 600 0 3 = 0 ∧
    projection 800 600 1 0 = 0 ∧ projection 800 600 1 1 = -2 / 600 ∧
    projection 800 600 1 2 = 0 ∧ projection 800 600 1 3 = 0 ∧
    projection 800 600 2 0 = 0 ∧ projection 800 600 2 1 = 0 ∧
    projection 800 600 2 2 = 1 ∧ projection 800 600 2 3 = 0 ∧
    projection 800 600 3 0 = -1 ∧ projection 800 600 3 1 = 1 ∧
    projection 800 600 3 2 = 0 ∧ projection 800 600 3 3 = 1 ∧
    ndcOf 800 600 0 0 = (-1, 1) ∧
    ndcOf 800 600 800 600 = (1, -1) :=
  C7_theorem 800 600 (by norm_num) (by norm_num)

/-! # Claim C8: out-of-memory on renderer creation -/

/-- C8: `GLES2_CreateRenderer` handles a failed renderer allocation
correctly (reports out-of-memory, returns NULL), but when the renderer
allocation succeeds and the driver-context allocation fails, the missing
`!rdata` check lets the code fall through to
`rdata->context = SDL_GL_CreateContext(window)`, a write through a NULL
pointer (undefined behaviour, modelled as `none`) instead of the claimed
out-of-memory error return. -/
theorem C8_theorem :
    GLES2_CreateRenderer ⟨false, true, true, true, true, true⟩
      = some (none, some .outOfMemory) ∧
    GLES2_CreateRenderer ⟨true, false, true, true, true, true⟩ = none := by
  decide

/-! # Claim C9: unrecognised blend modes disable blending -/

/-- C9: every blend-mode value other than `SDL_BLENDMODE_BLEND`,
`SDL_BLENDMODE_ADD` and `SDL_BLENDMODE_MOD` — including
`SDL_BLENDMODE_NONE` and arbitrary unrecognised values — falls into the
`default`/`NONE` arm of the switch and disables GL blending. -/
theorem C9_theorem (v : Int) (h1 : v ≠ SDL_BLENDMODE_BLEND)
    (h2 : v ≠ SDL_BLENDMODE_ADD) (h3 : v ≠ SDL_BLENDMODE_MOD) :
    GLES2_SetBlendMode v = .disabled := by
  simp [GLES2_SetBlendMode, h1, h2, h3]

/-- C9 witness: the unrecognised value 7 disables blending. -/
theorem C9_witness :
    (7 : Int) ≠ SDL_BLENDMODE_BLEND ∧ (7 : Int) ≠ SDL_BLENDMODE_ADD ∧
    (7 : Int) ≠ SDL_BLENDMODE_MOD ∧ GLES2_SetBlendMode 7 = .disabled :=
  ⟨by decide, by decide, by decide, C9_theorem 7 (by decide) (by decide) (by decide)⟩

/-! # Claim C10: empty-rectangle texture update -/

/-- C10 counterexample: with a resize pending (`updSize = true`), an
empty-rectangle `GLES2_UpdateTexture` still issues a GPU call — the
`GLES2_ActivateRenderer` prelude runs before the empty-rectangle check and
performs the pending `glViewport` — so the call is not free of GPU calls
as claimed (it returns 0 and one viewport call appears in the trace). -/
theorem C10_counterexample :
    ((GLES2_UpdateTexture wst1 tex0 ⟨0, 0, 0, 0⟩ (fun _ _ => 0) 0 true true true).map
      (fun r => (r.1, countViewport r.2.1.trace)))
      = some (0, 1) := by
  decide

/-- C10 (amended): for every update rectangle with non-positive width or
height, `GLES2_UpdateTexture` returns success (0) immediately after the
activation prelude: the texture (GPU storage and streaming buffer) is
returned exactly unchanged, and no texture-related GPU call is issued —
the only possible GPU interaction is the renderer activation that precedes
the check (context make-current and a pending viewport sync). -/
theorem C10_theorem (s : WSt) (t : Tex) (r : Rect) (pix : Int → Int → Int)
    (pitch : Int) (mkOk blobOk subOk : Bool) (hr : r.w ≤ 0 ∨ r.h ≤ 0) :
    GLES2_UpdateTexture s t r pix pitch mkOk blobOk subOk
      = some (0, (GLES2_ActivateRenderer s mkOk).2, t) := by
  simp only [GLES2_UpdateTexture]
  rw [if_pos hr]

/-- C10 witness: an empty 1×0 rectangle at a concrete state and texture. -/
theorem C10_witness :
    GLES2_UpdateTexture wst0 tex0 ⟨1, 2, 5, 0⟩ (fun _ _ => 1) 12 true true true
      = some (0, (GLES2_ActivateRenderer wst0 true).2, tex0) :=
  C10_theorem wst0 tex0 ⟨1, 2, 5, 0⟩ (fun _ _ => 1) 12 true true true
    (Or.inr (by norm_num))

/-! # Claim C1: LRU eviction after a tail-entry promotion -/

/-- C1 (code bug): running `ops1` under `env1`, the first eight calls
insert the pairs (vertex 0, fragment 1), (0, 3), ..., (0, 15) — fragment
entry `1` belongs to blend mode 1, entry `3` to blend mode 2, and so on —
the ninth call hits the tail pair (0, 1) and promotes it to the list head
(making pair (0, 3) the least-recently-used), and the tenth call inserts a
ninth distinct pair, triggering the eviction.

Per the claim, the eviction victim must be the least-recently-used pair
(0, 3) and the just-promoted pair (0, 1) must survive.  The code does the
opposite: because the hit-promotion of lines 453-463 never updates
`program_cache.tail`, the stale tail still points at the promoted entry,
so the eviction frees the just-promoted most-recently-used pair (0, 1)
(first component `false`: no allocated program holds that pair) while the
LRU pair (0, 3) survives (second component `true`).  Worse, the unlink
`tail->next = NULL` cuts the list right after the new head: head and tail
both end at the new entry (id 18) while `count` stays 8, detaching the
other seven entries from the list. -/
theorem C1_theorem :
    (runOps env1 ops1).map (fun s =>
      (s.progs.any (fun p => p.2.vertex = 0 && p.2.fragment = 1),
       s.progs.any (fun p => p.2.vertex = 0 && p.2.fragment = 3),
       s.pHead, s.pTail, s.pCount,
       (hget s.progs 18).map (fun e => e.next)))
      = some (false, true, some 18, some 18, 8, some none) := by
  rfl

/-! # Claim C6: unsupported platform leaves the caches untouched -/

/-- C6: when the requested shader kind's candidate variants match no
supported platform format (`findInstance` finds nothing — e.g. the
platform advertises zero binary formats and no compiler),
`GLES2_SelectProgram` fails with the unsupported-platform error and the
post-state differs from the pre-state only in `current_program` (nulled by
the fault path) and the reported error: the shader cache, program cache,
both entry counts, and the GL trace (no shader or program object created)
are exactly the pre-call values. -/
theorem C6_theorem (env : Env) (s : St) (blend : Int) (o : Orc) (sh : ShaderDef)
    (hsh : env.getShader .vertexDefault blend = some sh)
    (hno : findInstance sh env.formats = none) :
    GLES2_SelectProgram env s .solid blend o
      = some (-1, { s with current := none,
                           lastError := some .unsupportedPlatform }) := by
  simp [GLES2_SelectProgram, GLES2_CacheShader, hsh, hno, selectFault]

/-- C6 witness: a solid-blend selection on a platform advertising no
shader formats, from the reachable state `stW`. -/
theorem C6_witness :
    GLES2_SelectProgram env6 stW .solid 1 okOrc
      = some (-1, { stW with current := none,
                             lastError := some .unsupportedPlatform }) :=
  C6_theorem env6 stW 1 okOrc ⟨some [(50, 0)]⟩ rfl rfl


/-- Continuation of the promotion proof: given the heap after the two
unlink statements, characterize the final heap after the three relink
statements and the head update. -/
theorem promote_tail {s : St} {e : Nat} {ent : PEntry} {h2 : PHeap} {s' : St}
    (hent : hget s.progs e = some ent)
    (nd0 : (s.progs.map Prod.fst).Nodup)
    (hk2 : h2.map Prod.fst = s.progs.map Prod.fst)
    (hrc2 : ∀ i, refCountOf h2 i = refCountOf s.progs i)
    (char2 : ∀ i, hget h2 i = (hget s.progs i).map (unlinkSpec ent i))
    (hp : (do
        let h ← pwr h2 e (fun x => { x with prev := none })
        let hd ← s.pHead
        let h ← pwr h e (fun x => { x with next := some hd })
        let h ← pwr h hd (fun x => { x with prev := some e })
        pure { s with progs := h, pHead := some e }) = some s') :
    ∃ hd, s.pHead = some hd ∧ (hget s.progs hd).isSome ∧
      s'.pHead = some e ∧ s'.pTail = s.pTail ∧ s'.pCount = s.pCount ∧
      s'.shaders = s.shaders ∧ s'.shCount = s.shCount ∧ s'.current = s.current ∧
      s'.fresh = s.fresh ∧ s'.lastError = s.lastError ∧ s'.trace = s.trace ∧
      s'.progs.map Prod.fst = s.progs.map Prod.fst ∧
      (∀ i, refCountOf s'.progs i = refCountOf s.progs i) ∧
      ∀ i, hget s'.progs i = (hget s.progs i).map (promoteSpec e ent hd i) := by
  have huls : unlinkSpec ent e ent = ent := by
    unfold unlinkSpec
    simp only [ite_self]
  have hee2 : hget h2 e = some ent := by
    rw [char2 e, hent, Option.map_some', huls]
  rw [show pwr h2 e (fun x => { x with prev := none })
        = some (hset h2 e { ent with prev := none }) by
      unfold pwr
      rw [hee2]] at hp
  simp only [Option.bind_eq_bind, Option.some_bind] at hp
  cases hhd : s.pHead with
  | none => rw [hhd] at hp; simp at hp
  | some hd =>
    rw [hhd] at hp
    simp only [Option.some_bind] at hp
    rw [show pwr (hset h2 e { ent with prev := none }) e (fun x => { x with next := some hd })
          = some (hset (hset h2 e { ent with prev := none }) e
                    { ent with prev := none, next := some hd }) by
        unfold pwr
        rw [hget_hset_self _ hee2]] at hp
    simp only [Option.some_bind] at hp
    -- the two successive writes to `e` collapse into one
    have hcoll : hset (hset h2 e { ent with prev := none }) e
        { ent with prev := none, next := some hd }
        = hset h2 e { ent with prev := none, next := some hd } := by
      have hh : ∀ (h : PHeap) (j : Nat) (v w : PEntry), hset (hset h j v) j w = hset h j w := by
        intro h j v w
        induction h with
        | nil => rfl
        | cons p t ih =>
          obtain ⟨k, a⟩ := p
          by_cases hkj : k = j <;> simp [hset, hkj, ih]
      exact hh h2 e _ _
    rw [hcoll] at hp
    have char4 : ∀ i, hget (hset h2 e { ent with prev := none, next := some hd }) i
        = if i = e then some { ent with prev := none, next := some hd }
          else (hget s.progs i).map (unlinkSpec ent i) := by
      intro i
      rw [hget_hset]
      by_cases hie : e = i
      · subst hie
        rw [if_pos rfl, if_pos rfl, hee2, Option.map_some']
      · rw [if_neg hie, if_neg (fun h => hie h.symm), char2 i]
    cases hghd : hget (hset h2 e { ent with prev := none, next := some hd }) hd with
    | none =>
      rw [show pwr (hset h2 e { ent with prev := none, next := some hd }) hd
            (fun x => { x with prev := some e }) = none by
          unfold pwr
          rw [hghd]] at hp
      simp at hp
    | some ehd4 =>
      rw [show pwr (hset h2 e { ent with prev := none, next := some hd }) hd
            (fun x => { x with prev := some e })
            = some (hset (hset h2 e { ent with prev := none, next := some hd }) hd
                      { ehd4 with prev := some e }) by
          unfold pwr
          rw [hghd]] at hp
      simp only [Option.some_bind, pure, Option.some.injEq] at hp
      subst hp
      have nd2 : (h2.map Prod.fst).Nodup := by
        rw [hk2]
        exact nd0
      have hk3 : ((hset h2 e { ent with prev := none, next := some hd }).map Prod.fst).Nodup := by
        rw [hset_map_fst]
        exact nd2
      have hhdlive : (hget s.progs hd).isSome := by
        rw [char4 hd] at hghd
        by_cases hde : hd = e
        · rw [hde, hent]
          rfl
        · rw [if_neg hde] at hghd
          cases hg0 : hget s.progs hd with
          | none => rw [hg0] at hghd; simp at hghd
          | some xhd => rfl
      refine ⟨hd, rfl, hhdlive, rfl, rfl, rfl, rfl, rfl, rfl, rfl, rfl, rfl, ?_, ?_, ?_⟩
      · simp only
        rw [hset_map_fst, hset_map_fst]
        exact hk2
      · intro i
        simp only
        have r1 : refCountOf (hset (hset h2 e { ent with prev := none, next := some hd }) hd
              { ehd4 with prev := some e }) i
            = refCountOf (hset h2 e { ent with prev := none, next := some hd }) i :=
          refCountOf_hset_core { ehd4 with prev := some e } hk3 hghd rfl rfl i
        have r2 : refCountOf (hset h2 e { ent with prev := none, next := some hd }) i
            = refCountOf h2 i :=
          refCountOf_hset_core { ent with prev := none, next := some hd } nd2 hee2 rfl rfl i
        rw [r1, r2]
        exact hrc2 i
      intro i
      simp only
      rw [hget_hset]
      by_cases hhi : hd = i
      · rw [if_pos hhi, hghd, Option.map_some']
        rw [char4] at hghd
        subst hhi
        by_cases hde : hd = e
        · rw [if_pos hde] at hghd
          cases hghd
          subst hde
          rw [hent, Option.map_some']
          unfold promoteSpec
          simp
        · rw [if_neg hde] at hghd
          cases hg0 : hget s.progs hd with
          | none => rw [hg0] at hghd; simp at hghd
          | some xhd =>
            rw [hg0] at hghd
            simp only [Option.map_some', Option.some.injEq] at hghd
            subst hghd
            simp only [Option.map_some', Option.some.injEq]
            unfold promoteSpec unlinkSpec
            simp [hde]
      · rw [if_neg hhi, char4]
        by_cases hie : i = e
        · rw [if_pos hie]
          subst hie
          rw [hent, Option.map_some']
          have hih : ¬ i = hd := fun h => hhi h.symm
          unfold promoteSpec
          simp [hih]
        · rw [if_neg hie]
          cases hg0 : hget s.progs i with
          | none => simp
          | some x =>
            have hih : ¬ i = hd := fun h => hhi h.symm
            simp only [Option.map_some', Option.some.injEq]
            unfold promoteSpec unlinkSpec
            simp [hie, hih]

/-- Full characterization of `promote`: it requires the target entry and
the list head to be live (and the target's neighbours where dereferenced),
moves the head to `e` without touching `pTail`, counts, shader cache or
`current_program`, and rewrites the heap pointwise by `promoteSpec`. -/
theorem promote_eq {s : St} {e : Nat} {s' : St}
    (nd : (s.progs.map Prod.fst).Nodup) (hp : promote s e = some s') :
    ∃ ent hd, hget s.progs e = some ent ∧ s.pHead = some hd ∧
      (hget s.progs hd).isSome ∧
      s'.pHead = some e ∧ s'.pTail = s.pTail ∧ s'.pCount = s.pCount ∧
      s'.shaders = s.shaders ∧ s'.shCount = s.shCount ∧ s'.current = s.current ∧
      s'.fresh = s.fresh ∧ s'.lastError = s.lastError ∧ s'.trace = s.trace ∧
      s'.progs.map Prod.fst = s.progs.map Prod.fst ∧
      (∀ i, refCountOf s'.progs i = refCountOf s.progs i) ∧
      ∀ i, hget s'.progs i = (hget s.progs i).map (promoteSpec e ent hd i) := by
  unfold promote at hp
  dsimp only at hp
  cases hent : hget s.progs e with
  | none => rw [hent] at hp; simp at hp
  | some ent =>
    rw [hent] at hp
    simp only [Option.bind_eq_bind, Option.some_bind] at hp
    cases hna : ent.next with
    | none =>
      rw [hna] at hp
      simp only [Option.some_bind, pure] at hp
      rw [hent] at hp
      simp only [Option.some_bind] at hp
      cases hnb : ent.prev with
      | none =>
        rw [hnb] at hp
        simp only [Option.some_bind, pure] at hp
        have char2 : ∀ i, hget s.progs i = (hget s.progs i).map (unlinkSpec ent i) := by
          intro i
          cases hg : hget s.progs i with
          | none => simp
          | some x =>
            simp only [Option.map_some', Option.some.injEq]
            unfold unlinkSpec
            simp [hna, hnb]
        obtain ⟨hd, hhd, hrest⟩ := promote_tail hent nd rfl (fun i => rfl) char2 hp
        exact ⟨ent, hd, rfl, hhd, hrest⟩
      | some b =>
        rw [hnb] at hp
        simp only [Option.some_bind] at hp
        cases hgb : hget s.progs b with
        | none =>
          rw [show pwr s.progs b (fun x => { x with next := ent.next }) = none by
              unfold pwr
              rw [hgb]] at hp
          simp at hp
        | some eb =>
          rw [show pwr s.progs b (fun x => { x with next := ent.next })
                = some (hset s.progs b { eb with next := ent.next }) by
              unfold pwr
              rw [hgb]] at hp
          simp only [Option.some_bind] at hp
          have char2 : ∀ i, hget (hset s.progs b { eb with next := ent.next }) i
              = (hget s.progs i).map (unlinkSpec ent i) := by
            intro i
            rw [hget_hset]
            by_cases hbi : b = i
            · subst hbi
              rw [if_pos rfl, hgb]
              simp only [Option.map_some', Option.some.injEq]
              unfold unlinkSpec
              simp [hna, hnb]
            · rw [if_neg hbi]
              cases hg : hget s.progs i with
              | none => simp
              | some x =>
                simp only [Option.map_some', Option.some.injEq]
                have hbi' : ¬ ent.prev = some i := by
                  rw [hnb]
                  simp
                  exact hbi
                unfold unlinkSpec
                simp [hna, hbi']
          have hk2 : (hset s.progs b { eb with next := ent.next }).map Prod.fst
              = s.progs.map Prod.fst := hset_map_fst _ _ _
          have hrc2 : ∀ i, refCountOf (hset s.progs b { eb with next := ent.next }) i
              = refCountOf s.progs i := fun i => refCountOf_hset_core { eb with next := ent.next } nd hgb rfl rfl i
          obtain ⟨hd, hhd, hrest⟩ := promote_tail hent nd hk2 hrc2 char2 hp
          exact ⟨ent, hd, rfl, hhd, hrest⟩
    | some a =>
      rw [hna] at hp
      simp only [Option.some_bind] at hp
      cases hga : hget s.progs a with
      | none =>
        rw [show pwr s.progs a (fun x => { x with prev := ent.prev }) = none by
            unfold pwr
            rw [hga]] at hp
        simp at hp
      | some ea =>
        rw [show pwr s.progs a (fun x => { x with prev := ent.prev })
              = some (hset s.progs a { ea with prev := ent.prev }) by
            unfold pwr
            rw [hga]] at hp
        simp only [Option.some_bind] at hp
        have hent1 : hget (hset s.progs a { ea with prev := ent.prev }) e = some ent := by
          by_cases hae : a = e
          · subst hae
            rw [hget_hset_self _ hga]
            rw [hent] at hga
            cases hga
            rfl
          · rw [hget_hset_ne _ _ hae, hent]
        rw [hent1] at hp
        simp only [Option.some_bind] at hp
        cases hnb : ent.prev with
        | none =>
          rw [hnb] at hp hent1
          simp only [Option.some_bind, pure] at hp
          have char2 : ∀ i, hget (hset s.progs a { ea with prev := none }) i
              = (hget s.progs i).map (unlinkSpec ent i) := by
            intro i
            rw [hget_hset]
            by_cases hai : a = i
            · subst hai
              rw [if_pos rfl, hga]
              simp only [Option.map_some', Option.some.injEq]
              unfold unlinkSpec
              simp [hna, hnb]
            · rw [if_neg hai]
              cases hg : hget s.progs i with
              | none => simp
              | some x =>
                simp only [Option.map_some', Option.some.injEq]
                have hai' : ¬ ent.next = some i := by
                  rw [hna]
                  simp
                  exact hai
                unfold unlinkSpec
                simp [hai', hnb]
          have hk2 : (hset s.progs a { ea with prev := none }).map Prod.fst
              = s.progs.map Prod.fst := hset_map_fst _ _ _
          have hrc2 : ∀ i, refCountOf (hset s.progs a { ea with prev := none }) i
              = refCountOf s.progs i := fun i => refCountOf_hset_core { ea with prev := none } nd hga rfl rfl i
          obtain ⟨hd, hhd, hrest⟩ := promote_tail hent nd hk2 hrc2 char2 hp
          exact ⟨ent, hd, rfl, hhd, hrest⟩
        | some b =>
          rw [hnb] at hp hent1
          simp only [Option.some_bind] at hp
          cases hgb1 : hget (hset s.progs a { ea with prev := some b }) b with
          | none =>
            rw [show pwr (hset s.progs a { ea with prev := some b }) b
                  (fun x => { x with next := ent.next }) = none by
                unfold pwr
                rw [hgb1]] at hp
            simp at hp
          | some eb1 =>
            rw [show pwr (hset s.progs a { ea with prev := some b }) b
                  (fun x => { x with next := ent.next })
                  = some (hset (hset s.progs a { ea with prev := some b }) b
                            { eb1 with next := ent.next }) by
                unfold pwr
                rw [hgb1]] at hp
            simp only [Option.some_bind] at hp
            have char2 : ∀ i, hget (hset (hset s.progs a { ea with prev := some b }) b
                  { eb1 with next := ent.next }) i
                = (hget s.progs i).map (unlinkSpec ent i) := by
              intro i
              rw [hget_hset]
              by_cases hbi : b = i
              · subst hbi
                rw [if_pos rfl, hgb1]
                simp only [Option.map_some', Option.some.injEq]
                rw [hget_hset] at hgb1
                by_cases hab : a = b
                · rw [if_pos hab, hga] at hgb1
                  simp only [Option.map_some', Option.some.injEq] at hgb1
                  subst hgb1
                  subst hab
                  rw [hga]
                  simp only [Option.map_some', Option.some.injEq]
                  unfold unlinkSpec
                  simp [hna, hnb]
                · rw [if_neg hab] at hgb1
                  rw [hgb1]
                  simp only [Option.map_some', Option.some.injEq]
                  unfold unlinkSpec
                  have hab' : ¬ ent.next = some b := by
                    rw [hna]
                    simp
                    exact hab
                  simp [hab', hnb]
              · rw [if_neg hbi, hget_hset]
                by_cases hai : a = i
                · subst hai
                  rw [if_pos rfl, hga]
                  simp only [Option.map_some', Option.some.injEq]
                  unfold unlinkSpec
                  have hbi' : ¬ ent.prev = some a := by
                    rw [hnb]
                    simp
                    exact hbi
                  simp [hna, hbi', hnb, hbi]
                · rw [if_neg hai]
                  cases hg : hget s.progs i with
                  | none => simp
                  | some x =>
                    simp only [Option.map_some', Option.some.injEq]
                    have hai' : ¬ ent.next = some i := by
                      rw [hna]
                      simp
                      exact hai
                    have hbi' : ¬ ent.prev = some i := by
                      rw [hnb]
                      simp
                      exact hbi
                    unfold unlinkSpec
                    simp [hai', hbi']
            have nd1 : ((hset s.progs a { ea with prev := some b }).map Prod.fst).Nodup := by
              rw [hset_map_fst]
              exact nd
            have hk2 : ((hset (hset s.progs a { ea with prev := some b }) b
                  { eb1 with next := ent.next }).map Prod.fst)
                = s.progs.map Prod.fst := by
              rw [hset_map_fst, hset_map_fst]
            have hrc2 : ∀ i, refCountOf (hset (hset s.progs a { ea with prev := some b }) b
                  { eb1 with next := ent.next }) i
                = refCountOf s.progs i := by
              intro i
              have r1 : refCountOf (hset (hset s.progs a { ea with prev := some b }) b
                    { eb1 with next := ent.next }) i
                  = refCountOf (hset s.progs a { ea with prev := some b }) i :=
                refCountOf_hset_core { eb1 with next := ent.next } nd1 hgb1 rfl rfl i
              have r2 : refCountOf (hset s.progs a { ea with prev := some b }) i
                  = refCountOf s.progs i :=
                refCountOf_hset_core { ea with prev := some b } nd hga rfl rfl i
              rw [r1, r2]
            obtain ⟨hd, hhd, hrest⟩ := promote_tail hent nd hk2 hrc2 char2 hp
            exact ⟨ent, hd, rfl, hhd, hrest⟩

/-- A cache hit's promotion preserves the core invariant: it only
rearranges `prev`/`next` pointers of live entries, so freshness, the
shader cache, reference counts and the count fields are untouched, and the
back-link/forward-link consistency (`backlink`) is re-established by a case
analysis over the rewritten pointers. -/
theorem promote_coreInv {s : St} {e : Nat} {s' : St}
    (inv : CacheCoreInv s) (hp : promote s e = some s') :
    CacheCoreInv s' ∧ s'.pHead = some e ∧ s'.pTail = s.pTail ∧
      s'.shaders = s.shaders ∧ s'.current = s.current ∧ s'.fresh = s.fresh ∧
      s'.lastError = s.lastError ∧ s'.trace = s.trace ∧
      s'.pCount = s.pCount ∧ s'.shCount = s.shCount ∧
      (∀ i x, hget s.progs i = some x → ∃ x', hget s'.progs i = some x' ∧
        x'.vertex = x.vertex ∧ x'.fragment = x.fragment) := by
  obtain ⟨ent, hd, hent, hhd, hhdl, hH, hT, hC, hSh, hShC, hCur, hF, hLE, hTr,
    hKeys, hRC, hchar⟩ := promote_eq inv.nodupP hp
  have hlive : ∀ i x, hget s.progs i = some x → ∃ x', hget s'.progs i = some x' ∧
      x'.vertex = x.vertex ∧ x'.fragment = x.fragment := by
    intro i x hx
    refine ⟨promoteSpec e ent hd i x, ?_, rfl, rfl⟩
    rw [hchar i, hx, Option.map_some']
  refine ⟨?_, hH, hT, hSh, hCur, hF, hLE, hTr, hC, hShC, hlive⟩
  obtain ⟨enthd, henthd⟩ := Option.isSome_iff_exists.mp hhdl
  constructor
  · rw [hKeys]
    exact inv.nodupP
  · rw [hSh]
    exact inv.nodupS
  · intro i x hx
    rw [hchar i] at hx
    cases hx0 : hget s.progs i with
    | none => rw [hx0] at hx; simp at hx
    | some x0 =>
      rw [hF]
      exact inv.freshP i x0 hx0
  · rw [hSh, hF]
    exact inv.freshS
  · intro i x hx
    rw [hchar i] at hx
    cases hx0 : hget s.progs i with
    | none => rw [hx0] at hx; simp at hx
    | some x0 =>
      rw [hx0, Option.map_some', Option.some.injEq] at hx
      subst hx
      rw [hF]
      unfold promoteSpec
      obtain ⟨hp0, hn0⟩ := inv.ptrFresh i x0 hx0
      obtain ⟨hpe, hne⟩ := inv.ptrFresh e ent hent
      constructor
      · intro q hq
        simp only at hq
        split at hq
        · cases hq
          exact inv.freshP e ent hent
        · split at hq
          · cases hq
          · split at hq
            · exact hpe q hq
            · exact hp0 q hq
      · intro q hq
        simp only at hq
        split at hq
        · cases hq
          exact inv.freshP hd enthd henthd
        · split at hq
          · exact hne q hq
          · exact hn0 q hq
  · -- backlink is re-established
    intro y ey x ex hy hyp hx
    rw [hchar y] at hy
    rw [hchar x] at hx
    cases hy0 : hget s.progs y with
    | none => rw [hy0] at hy; simp at hy
    | some y0 =>
      cases hx0 : hget s.progs x with
      | none => rw [hx0] at hx; simp at hx
      | some x0 =>
        rw [hy0, Option.map_some', Option.some.injEq] at hy
        rw [hx0, Option.map_some', Option.some.injEq] at hx
        subst hy
        subst hx
        unfold promoteSpec at hyp ⊢
        simp only at hyp ⊢
        by_cases hyh : y = hd
        · rw [if_pos hyh] at hyp
          cases hyp
          rw [hent] at hx0
          cases hx0
          rw [if_pos rfl, hyh]
        · rw [if_neg hyh] at hyp
          by_cases hye : y = e
          · rw [if_pos hye] at hyp
            cases hyp
          · rw [if_neg hye] at hyp
            by_cases hentn : ent.next = some y
            · rw [if_pos hentn] at hyp
              by_cases hxe : x = e
              · rw [hxe] at hyp hx0
                rw [hent] at hx0
                cases hx0
                have hb := inv.backlink e ent e ent hent hyp hent
                rw [hentn] at hb
                simp only [Option.some.injEq] at hb
                exact absurd hb hye
              · rw [if_neg hxe, if_pos hyp]
                exact hentn
            · rw [if_neg hentn] at hyp
              have hb := inv.backlink y y0 x x0 hy0 hyp hx0
              by_cases hxe : x = e
              · rw [hxe] at hx0
                rw [hent] at hx0
                cases hx0
                exact absurd hb hentn
              · rw [if_neg hxe]
                by_cases hpx : ent.prev = some x
                · have hb2 := inv.backlink e ent x x0 hent hpx hx0
                  rw [hb] at hb2
                  cases hb2
                  exact absurd rfl hye
                · rw [if_neg hpx]
                  exact hb
  · -- shadersLive
    intro i x hx
    rw [hchar i] at hx
    cases hx0 : hget s.progs i with
    | none => rw [hx0] at hx; simp at hx
    | some x0 =>
      rw [hx0, Option.map_some', Option.some.injEq] at hx
      subst hx
      rw [hSh]
      exact inv.shadersLive i x0 hx0
  · -- refEq
    intro i x hx
    rw [hSh] at hx
    rw [hRC i]
    exact inv.refEq i x hx
  · -- pCountEq
    rw [hC]
    have hlen : s'.progs.length = s.progs.length := by
      have := congrArg List.length hKeys
      simpa using this
    rw [hlen]
    exact inv.pCountEq
  · rw [hShC, hSh]
    exact inv.shCountEq
  · rw [hSh]
    exact inv.instUniq
  · intro hn
    rw [hH] at hn
    cases hn
  · intro t ht
    rw [hT] at ht
    rw [hF]
    exact inv.tailFresh t ht

/-! ## Shader-side step characterizations -/

theorem evictShader_eq {s : St} {i : Nat} {s' : St}
    (h : GLES2_EvictShader s i = some s') :
    ∃ e, hget s.shaders i = some e ∧
      s' = { s with shaders := hdel s.shaders i, shCount := s.shCount - 1,
                    trace := .deleteShader i :: s.trace } := by
  unfold GLES2_EvictShader at h
  cases hg : hget s.shaders i with
  | none => rw [hg] at h; cases h
  | some e =>
    rw [hg] at h
    simp only [Option.some.injEq] at h
    exact ⟨e, rfl, h.symm⟩

theorem incRef_eq {s : St} {i : Nat} {s' : St} (h : incRef s i = some s') :
    ∃ e, hget s.shaders i = some e ∧
      s' = { s with shaders := hset s.shaders i { e with references := e.references + 1 } } := by
  unfold incRef at h
  cases hg : hget s.shaders i with
  | none => rw [hg] at h; cases h
  | some e =>
    rw [hg] at h
    simp only [Option.bind_eq_bind, Option.some_bind, pure, Option.some.injEq] at h
    exact ⟨e, rfl, h.symm⟩

/-- Characterization of `--references; if (<= 0) evict`: the shader heap
changes pointwise at `k` only — to a decremented entry if it stays
positive, to nothing if it was evicted — and nothing else of the state
changes except the count/trace bookkeeping of the eviction. -/
theorem decRefEvict_char {s : St} {k : Nat} {s' : St}
    (nd : (s.shaders.map Prod.fst).Nodup)
    (h : decRefEvict s k = some s') :
    ∃ ek, hget s.shaders k = some ek ∧
      s'.progs = s.progs ∧ s'.pHead = s.pHead ∧ s'.pTail = s.pTail ∧
      s'.pCount = s.pCount ∧ s'.current = s.current ∧ s'.fresh = s.fresh ∧
      ((1 ≤ ek.references - 1 ∧ s'.shCount = s.shCount ∧
        s'.shaders.map Prod.fst = s.shaders.map Prod.fst ∧
        s'.shaders.length = s.shaders.length ∧
        (∀ i, hget s'.shaders i
          = if i = k then some { ek with references := ek.references - 1 }
            else hget s.shaders i)) ∨
       (ek.references - 1 ≤ 0 ∧ s'.shCount = s.shCount - 1 ∧
        (s'.shaders.map Prod.fst).Nodup ∧
        s'.shaders.length + 1 = s.shaders.length ∧
        (∀ i, hget s'.shaders i = if i = k then none else hget s.shaders i))) := by
  unfold decRefEvict at h
  cases hg : hget s.shaders k with
  | none => rw [hg] at h; cases h
  | some ek =>
    rw [hg] at h
    simp only [Option.bind_eq_bind, Option.some_bind] at h
    by_cases hr : ek.references - 1 ≤ 0
    · rw [if_pos hr] at h
      obtain ⟨e2, hg2, hs'⟩ := evictShader_eq h
      have hkeys : ((hset s.shaders k { ek with references := ek.references - 1 }).map
          Prod.fst).Nodup := by
        rw [hset_map_fst]
        exact nd
      have hgset : hget (hset s.shaders k { ek with references := ek.references - 1 }) k
          = some { ek with references := ek.references - 1 } := hget_hset_self _ hg
      refine ⟨ek, rfl, ?_, ?_, ?_, ?_, ?_, ?_, Or.inr ⟨hr, ?_, ?_, ?_, ?_⟩⟩ <;>
        rw [hs']
      · -- nodup of the final shader heap
        exact hdel_nodup hkeys
      · -- length
        simp only
        rw [hdel_length hkeys hgset, hset_length]
      · intro i
        simp only
        rw [hget_hdel]
        by_cases hik : k = i
        · rw [if_pos hik, if_pos hik.symm]
        · rw [if_neg hik, if_neg (fun hh => hik hh.symm), hget_hset_ne _ _ hik]
    · rw [if_neg hr] at h
      simp only [pure, Option.some.injEq] at h
      subst h
      refine ⟨ek, rfl, rfl, rfl, rfl, rfl, rfl, rfl,
        Or.inl ⟨by omega, rfl, hset_map_fst _ _ _, hset_length _ _ _, ?_⟩⟩
      intro i
      simp only
      by_cases hik : i = k
      · rw [if_pos hik, hik]
        exact hget_hset_self _ hg
      · rw [if_neg hik, hget_hset_ne _ _ (fun hh => hik hh.symm)]


/-- Combined effect on the shader cache of the two reference decrements an
eviction performs (`tail->vertex_shader` then `tail->fragment_shader`):
survivors lose exactly one reference per decremented slot, and stay
positive if they were decremented; entries that disappeared were
decremented to zero or below. -/
theorem decTwo_summary {s s1 s2 : St} {v f : Nat}
    (nd : (s.shaders.map Prod.fst).Nodup)
    (hcnt : s.shCount = s.shaders.length)
    (h1 : decRefEvict s v = some s1) (h2 : decRefEvict s1 f = some s2) :
    s2.progs = s.progs ∧ s2.pHead = s.pHead ∧ s2.pTail = s.pTail ∧
    s2.pCount = s.pCount ∧ s2.current = s.current ∧ s2.fresh = s.fresh ∧
    ((s2.shaders.map Prod.fst).Nodup) ∧ s2.shCount = s2.shaders.length ∧
    (∀ i e', hget s2.shaders i = some e' → ∃ e0, hget s.shaders i = some e0 ∧
       e'.references = e0.references - (if i = v then 1 else 0)
         - (if i = f then 1 else 0) ∧
       e'.inst = e0.inst ∧
       ((i ≠ v ∧ i ≠ f) ∨ 1 ≤ e'.references)) ∧
    (∀ i e0, hget s.shaders i = some e0 → hget s2.shaders i = none →
       e0.references - (if i = v then 1 else 0) - (if i = f then 1 else 0) ≤ 0
         ∧ (i = v ∨ i = f)) := by
  obtain ⟨ev, hgv, p1progs, p1H, p1T, p1C, p1cur, p1fresh, br1⟩ := decRefEvict_char nd h1
  have nd1 : (s1.shaders.map Prod.fst).Nodup := by
    rcases br1 with ⟨_, _, hk, _, _⟩ | ⟨_, _, hnd, _, _⟩
    · rw [hk]
      exact nd
    · exact hnd
  obtain ⟨ef, hgf, p2progs, p2H, p2T, p2C, p2cur, p2fresh, br2⟩ := decRefEvict_char nd1 h2
  have hsync1 : s1.shCount = s1.shaders.length := by
    rcases br1 with ⟨_, hc, _, hl, _⟩ | ⟨_, hc, _, hl, _⟩ <;> rw [hc, hcnt] <;> omega
  have hsync2 : s2.shCount = s2.shaders.length := by
    rcases br2 with ⟨_, hc, _, hl, _⟩ | ⟨_, hc, _, hl, _⟩ <;> rw [hc, hsync1] <;> omega
  have nd2 : (s2.shaders.map Prod.fst).Nodup := by
    rcases br2 with ⟨_, _, hk, _, _⟩ | ⟨_, _, hnd, _, _⟩
    · rw [hk]
      exact nd1
    · exact hnd
  have hchar1 : ∀ j, hget s1.shaders j
      = if j = v then (if 1 ≤ ev.references - 1 then
          some { ev with references := ev.references - 1 } else none)
        else hget s.shaders j := by
    intro j
    rcases br1 with ⟨hpos, _, _, _, hc⟩ | ⟨hneg, _, _, _, hc⟩
    · rw [hc j]
      by_cases hjv : j = v
      · rw [if_pos hjv, if_pos hjv, if_pos hpos]
      · rw [if_neg hjv, if_neg hjv]
    · rw [hc j]
      by_cases hjv : j = v
      · rw [if_pos hjv, if_pos hjv,
          if_neg (show ¬ 1 ≤ ev.references - 1 by omega)]
      · rw [if_neg hjv, if_neg hjv]
  have hchar2 : ∀ j, hget s2.shaders j
      = if j = f then (if 1 ≤ ef.references - 1 then
          some { ef with references := ef.references - 1 } else none)
        else hget s1.shaders j := by
    intro j
    rcases br2 with ⟨hpos, _, _, _, hc⟩ | ⟨hneg, _, _, _, hc⟩
    · rw [hc j]
      by_cases hjf : j = f
      · rw [if_pos hjf, if_pos hjf, if_pos hpos]
      · rw [if_neg hjf, if_neg hjf]
    · rw [hc j]
      by_cases hjf : j = f
      · rw [if_pos hjf, if_pos hjf,
          if_neg (show ¬ 1 ≤ ef.references - 1 by omega)]
      · rw [if_neg hjf, if_neg hjf]
  refine ⟨by rw [p2progs, p1progs], by rw [p2H, p1H], by rw [p2T, p1T],
    by rw [p2C, p1C], by rw [p2cur, p1cur], by rw [p2fresh, p1fresh],
    nd2, hsync2, ?_, ?_⟩
  · -- survivors
    intro i e' hgi
    rw [hchar2 i] at hgi
    by_cases hif : i = f
    · rw [if_pos hif] at hgi
      by_cases hrf : 1 ≤ ef.references - 1
      · rw [if_pos hrf] at hgi
        cases hgi
        have hgf' := hgf
        rw [hchar1 f] at hgf'
        by_cases hfv : f = v
        · rw [if_pos hfv] at hgf'
          by_cases hrv : 1 ≤ ev.references - 1
          · rw [if_pos hrv] at hgf'
            cases hgf'
            refine ⟨ev, by rw [hif, hfv]; exact hgv, ?_, rfl,
              Or.inr (by dsimp only; dsimp only at hrf; omega)⟩
            rw [if_pos (by rw [hif, hfv]), if_pos hif]
          · rw [if_neg hrv] at hgf'
            cases hgf'
        · rw [if_neg hfv] at hgf'
          refine ⟨ef, by rw [hif]; exact hgf', ?_, rfl,
            Or.inr (by dsimp only; omega)⟩
          rw [if_neg (fun hh : i = v => hfv (hif ▸ hh)), if_pos hif]
          dsimp only
          omega
      · rw [if_neg hrf] at hgi
        cases hgi
    · rw [if_neg hif, hchar1 i] at hgi
      by_cases hiv : i = v
      · rw [if_pos hiv] at hgi
        by_cases hrv : 1 ≤ ev.references - 1
        · rw [if_pos hrv] at hgi
          cases hgi
          refine ⟨ev, by rw [hiv]; exact hgv, ?_, rfl,
            Or.inr (by dsimp only; omega)⟩
          rw [if_pos hiv, if_neg hif]
          dsimp only
          omega
        · rw [if_neg hrv] at hgi
          cases hgi
      · rw [if_neg hiv] at hgi
        exact ⟨e', hgi, by rw [if_neg hiv, if_neg hif]; omega, rfl,
          Or.inl ⟨hiv, hif⟩⟩
  · -- casualties
    intro i e0 hg0 hgn
    rw [hchar2 i] at hgn
    by_cases hif : i = f
    · rw [if_pos hif] at hgn
      by_cases hrf : 1 ≤ ef.references - 1
      · rw [if_pos hrf] at hgn
        cases hgn
      · have hgf' := hgf
        rw [hchar1 f] at hgf'
        by_cases hfv : f = v
        · rw [if_pos hfv] at hgf'
          by_cases hrv : 1 ≤ ev.references - 1
          · rw [if_pos hrv] at hgf'
            cases hgf'
            have he0 : e0 = ev := by
              have := hg0
              rw [hif, hfv, hgv] at this
              cases this
              rfl
            subst he0
            refine ⟨?_, Or.inr hif⟩
            rw [if_pos (by rw [hif, hfv]), if_pos hif]
            dsimp only at hrf
            omega
          · rw [if_neg hrv] at hgf'
            cases hgf'
        · rw [if_neg hfv] at hgf'
          have he0 : e0 = ef := by
            have := hg0
            rw [hif, hgf'] at this
            cases this
            rfl
          subst he0
          refine ⟨?_, Or.inr hif⟩
          rw [if_neg (fun hh : i = v => hfv (hif ▸ hh)), if_pos hif]
          omega
    · rw [if_neg hif, hchar1 i] at hgn
      by_cases hiv : i = v
      · rw [if_pos hiv] at hgn
        by_cases hrv : 1 ≤ ev.references - 1
        · rw [if_pos hrv] at hgn
          cases hgn
        · have he0 : e0 = ev := by
            have := hg0
            rw [hiv, hgv] at this
            cases this
            rfl
          subst he0
          refine ⟨?_, Or.inl hiv⟩
          rw [if_pos hiv, if_neg hif]
          omega
      · rw [if_neg hiv, hg0] at hgn
        cases hgn

/-- A live program entry referencing a shader keeps its reference count
at least one. -/
theorem refCountOf_pos {h : PHeap} {i : Nat} {x : PEntry} (hg : hget h i = some x)
    {w : Nat} (hw : x.vertex = w ∨ x.fragment = w) : 1 ≤ refCountOf h w := by
  induction h with
  | nil => cases hg
  | cons q t ih =>
    obtain ⟨k, a⟩ := q
    rw [hget_cons] at hg
    rw [refCountOf_cons]
    have hnn := refCountOf_nonneg t w
    by_cases hki : k = i
    · rw [if_pos hki] at hg
      injection hg with hax
      subst hax
      rcases hw with hv | hf <;> split_ifs <;> omega
    · rw [if_neg hki] at hg
      have hih := ih hg
      split_ifs <;> omega

/-- Full characterization of the eviction block: it frees exactly the
entry the stale `tail` pointer designates, decrements (and possibly
evicts) its two shaders' reference counts, moves `tail` one step back and
cuts the `next` link there, and preserves the cache invariant. -/
theorem evictTail_post {s s' : St}
    (inv : CacheCoreInv s)
    (hrp : ∀ i e, hget s.shaders i = some e → 1 ≤ e.references)
    (h : evictTail s = some s') :
    ∃ t te p, s.pTail = some t ∧ hget s.progs t = some te ∧ te.prev = some p ∧
      p ≠ t ∧ CacheCoreInv s' ∧
      (∀ i e, hget s'.shaders i = some e → 1 ≤ e.references) ∧
      s'.pHead = s.pHead ∧ s'.pTail = some p ∧ s'.current = s.current ∧
      s'.fresh = s.fresh ∧ s'.pCount = s.pCount - 1 ∧
      hget s'.progs t = none ∧
      (∀ i x, hget s'.progs i = some x → ∃ x0, hget s.progs i = some x0 ∧
        x.vertex = x0.vertex ∧ x.fragment = x0.fragment ∧ x.blend = x0.blend) ∧
      (∀ i x, i ≠ t → hget s.progs i = some x → ∃ x', hget s'.progs i = some x' ∧
        x'.vertex = x.vertex ∧ x'.fragment = x.fragment ∧ x'.blend = x.blend) ∧
      (∀ i e', hget s'.shaders i = some e' → ∃ e0, hget s.shaders i = some e0 ∧
        e'.inst = e0.inst) := by
  unfold evictTail at h
  cases hT : s.pTail with
  | none =>
    rw [hT] at h
    simp only [Option.bind_eq_bind, Option.none_bind] at h
    exact Option.noConfusion h
  | some t =>
  rw [hT] at h
  simp only [Option.bind_eq_bind, Option.some_bind] at h
  cases hte : hget s.progs t with
  | none =>
    rw [hte] at h
    simp only [Option.none_bind] at h
    exact Option.noConfusion h
  | some te =>
  rw [hte] at h
  simp only [Option.some_bind] at h
  cases hd1 : decRefEvict s te.vertex with
  | none =>
    rw [hd1] at h
    simp only [Option.none_bind] at h
    exact Option.noConfusion h
  | some s1 =>
  rw [hd1] at h
  simp only [Option.some_bind] at h
  obtain ⟨_, _, p1progs, _⟩ := decRefEvict_char inv.nodupS hd1
  rw [show hget s1.progs t = some te by rw [p1progs]; exact hte] at h
  simp only [Option.some_bind] at h
  cases hd2 : decRefEvict s1 te.fragment with
  | none =>
    rw [hd2] at h
    simp only [Option.none_bind] at h
    exact Option.noConfusion h
  | some s2 =>
  rw [hd2] at h
  simp only [Option.some_bind] at h
  obtain ⟨q2progs, q2H, q2T, q2C, q2cur, q2fresh, nd2, hsync2, hsurv, hdead⟩ :=
    decTwo_summary inv.nodupS inv.shCountEq hd1 hd2
  rw [show hget s2.progs t = some te by rw [q2progs]; exact hte] at h
  simp only [Option.some_bind] at h
  cases hpr : te.prev with
  | none =>
    rw [hpr] at h
    simp only [Option.none_bind] at h
    exact Option.noConfusion h
  | some p =>
  rw [hpr] at h
  simp only [Option.some_bind] at h
  cases hgp : hget s.progs p with
  | none =>
    rw [show hget s2.progs p = none by rw [q2progs]; exact hgp] at h
    simp only [Option.none_bind] at h
    exact Option.noConfusion h
  | some pe =>
  rw [show hget s2.progs p = some pe by rw [q2progs]; exact hgp] at h
  simp only [Option.some_bind] at h
  have hpet : pe.next = some t := inv.backlink t te p pe hte hpr hgp
  rw [hpet] at h
  dsimp only at h
  rw [show hget s2.progs t = some te by rw [q2progs]; exact hte] at h
  simp only [pure, Option.some_bind] at h
  rw [q2progs] at h
  by_cases hpt : p = t
  · exfalso
    rw [show pwr (hdel s.progs t) p (fun x => { x with next := none }) = none by
      unfold pwr; rw [hget_hdel, if_pos hpt.symm]] at h
    simp only [Option.none_bind] at h
    exact Option.noConfusion h
  have hgdp : hget (hdel s.progs t) p = some pe := by
    rw [hget_hdel, if_neg (fun hh => hpt hh.symm)]
    exact hgp
  rw [show pwr (hdel s.progs t) p (fun x => { x with next := none })
      = some (hset (hdel s.progs t) p { pe with next := none }) by
    unfold pwr; rw [hgdp]] at h
  simp only [Option.some_bind, Option.some.injEq] at h
  subst h
  -- pointwise characterization of the final program heap
  have hpchar : ∀ i, hget (hset (hdel s.progs t) p { pe with next := none }) i
      = if p = i then some { pe with next := none }
        else if t = i then none else hget s.progs i := by
    intro i
    rw [hget_hset]
    by_cases hpi : p = i
    · rw [if_pos hpi, if_pos hpi, hgdp, Option.map_some']
    · rw [if_neg hpi, if_neg hpi, hget_hdel]
  have hflip : ∀ (a w : Nat), (if a = w then (1 : Int) else 0)
      = (if w = a then 1 else 0) := by
    intro a w
    by_cases hh : a = w
    · rw [if_pos hh, if_pos hh.symm]
    · rw [if_neg hh, if_neg (fun k => hh k.symm)]
  refine ⟨t, te, p, rfl, hte, hpr, hpt, ?_, ?_, ?_, ?_, ?_, ?_, ?_, ?_, ?_, ?_, ?_⟩
  · -- CacheCoreInv
    constructor
    · show ((hset (hdel s.progs t) p { pe with next := none }).map Prod.fst).Nodup
      rw [hset_map_fst]
      exact hdel_nodup inv.nodupP
    · exact nd2
    · intro i x hx
      rw [hpchar i] at hx
      show i < s2.fresh
      rw [q2fresh]
      by_cases hpi : p = i
      · exact hpi ▸ inv.freshP p pe hgp
      · rw [if_neg hpi] at hx
        by_cases hti : t = i
        · rw [if_pos hti] at hx
          cases hx
        · rw [if_neg hti] at hx
          exact inv.freshP i x hx
    · intro i e hx
      show i < s2.fresh
      rw [q2fresh]
      obtain ⟨e0, hg0, _⟩ := hsurv i e hx
      exact inv.freshS i e0 hg0
    · intro i x hx
      rw [hpchar i] at hx
      show (∀ q, x.prev = some q → q < s2.fresh) ∧
        (∀ q, x.next = some q → q < s2.fresh)
      rw [q2fresh]
      by_cases hpi : p = i
      · rw [if_pos hpi] at hx
        injection hx with hx
        subst hx
        refine ⟨fun q hq => (inv.ptrFresh p pe hgp).1 q hq, fun q hq => ?_⟩
        cases hq
      · rw [if_neg hpi] at hx
        by_cases hti : t = i
        · rw [if_pos hti] at hx
          cases hx
        · rw [if_neg hti] at hx
          exact inv.ptrFresh i x hx
    · intro y ey x ex hy hyp hx
      rw [hpchar y] at hy
      rw [hpchar x] at hx
      by_cases hpy : p = y
      · rw [if_pos hpy] at hy
        injection hy with hy
        subst hy
        dsimp only at hyp
        by_cases hpx : p = x
        · rw [if_pos hpx] at hx
          exfalso
          have hb : pe.next = some p :=
            inv.backlink p pe p pe hgp (by rw [hyp, hpx]) hgp
          rw [hpet] at hb
          injection hb with hb
          exact hpt hb.symm
        · rw [if_neg hpx] at hx
          by_cases htx : t = x
          · rw [if_pos htx] at hx
            cases hx
          · rw [if_neg htx] at hx
            have hb : ex.next = some p := inv.backlink p pe x ex hgp hyp hx
            rw [hb, hpy]
      · rw [if_neg hpy] at hy
        by_cases hty : t = y
        · rw [if_pos hty] at hy
          cases hy
        · rw [if_neg hty] at hy
          by_cases hpx : p = x
          · rw [if_pos hpx] at hx
            exfalso
            have hb : pe.next = some y :=
              inv.backlink y ey p pe hy (by rw [hyp, hpx]) hgp
            rw [hpet] at hb
            injection hb with hb
            exact hty hb
          · rw [if_neg hpx] at hx
            by_cases htx : t = x
            · rw [if_pos htx] at hx
              cases hx
            · rw [if_neg htx] at hx
              exact inv.backlink y ey x ex hy hyp hx
    · intro i x hx
      rw [hpchar i] at hx
      have key : ∀ x0 : PEntry, i ≠ t → hget s.progs i = some x0 →
          (hget s2.shaders x0.vertex).isSome ∧ (hget s2.shaders x0.fragment).isSome := by
        intro x0 hit hg0
        have hlive := inv.shadersLive i x0 hg0
        have hgd : hget (hdel s.progs t) i = some x0 := by
          rw [hget_hdel, if_neg (fun hh => hit hh.symm)]
          exact hg0
        constructor
        · cases hsv : hget s2.shaders x0.vertex with
          | some _ => rfl
          | none =>
            exfalso
            obtain ⟨e0, hg0s⟩ := Option.isSome_iff_exists.mp hlive.1
            obtain ⟨hle, _⟩ := hdead x0.vertex e0 hg0s hsv
            have he0 : e0.references = refCountOf s.progs x0.vertex :=
              inv.refEq _ e0 hg0s
            have hlow : 1 ≤ refCountOf (hdel s.progs t) x0.vertex :=
              refCountOf_pos hgd (Or.inl rfl)
            have hdel_eq := refCountOf_hdel inv.nodupP hte x0.vertex
            rw [hflip te.vertex x0.vertex, hflip te.fragment x0.vertex] at hdel_eq
            omega
        · cases hsv : hget s2.shaders x0.fragment with
          | some _ => rfl
          | none =>
            exfalso
            obtain ⟨e0, hg0s⟩ := Option.isSome_iff_exists.mp hlive.2
            obtain ⟨hle, _⟩ := hdead x0.fragment e0 hg0s hsv
            have he0 : e0.references = refCountOf s.progs x0.fragment :=
              inv.refEq _ e0 hg0s
            have hlow : 1 ≤ refCountOf (hdel s.progs t) x0.fragment :=
              refCountOf_pos hgd (Or.inr rfl)
            have hdel_eq := refCountOf_hdel inv.nodupP hte x0.fragment
            rw [hflip te.vertex x0.fragment, hflip te.fragment x0.fragment] at hdel_eq
            omega
      show (hget s2.shaders x.vertex).isSome ∧ (hget s2.shaders x.fragment).isSome
      by_cases hpi : p = i
      · rw [if_pos hpi] at hx
        injection hx with hx
        subst hx
        exact key pe (fun hh => hpt (hpi.trans hh)) (hpi ▸ hgp)
      · rw [if_neg hpi] at hx
        by_cases hti : t = i
        · rw [if_pos hti] at hx
          cases hx
        · rw [if_neg hti] at hx
          exact key x (fun hh => hti hh.symm) hx
    · intro i e hx
      obtain ⟨e0, hg0, hrefs, _, _⟩ := hsurv i e hx
      have he0 : e0.references = refCountOf s.progs i := inv.refEq i e0 hg0
      show e.references
        = refCountOf (hset (hdel s.progs t) p { pe with next := none }) i
      rw [refCountOf_hset_core { pe with next := none }
        (hdel_nodup inv.nodupP) hgdp rfl rfl i]
      rw [refCountOf_hdel inv.nodupP hte i]
      rw [hflip te.vertex i, hflip te.fragment i] at *
      omega
    · show s2.pCount - 1 = (hset (hdel s.progs t) p { pe with next := none }).length
      rw [hset_length, q2C, inv.pCountEq]
      have := hdel_length inv.nodupP hte
      omega
    · show s2.shCount = s2.shaders.length
      exact hsync2
    · intro i ei j ej hi hj hinst
      obtain ⟨e0i, hg0i, _, hinsti, _⟩ := hsurv i ei hi
      obtain ⟨e0j, hg0j, _, hinstj, _⟩ := hsurv j ej hj
      exact inv.instUniq i e0i j e0j hg0i hg0j (by rw [← hinsti, ← hinstj, hinst])
    · intro hn
      exfalso
      have h0 : s.pHead = none := by rw [← q2H]; exact hn
      rw [inv.headNone h0] at hte
      cases hte
    · intro t' ht'
      injection ht' with ht'
      show t' < s2.fresh
      rw [q2fresh, ← ht']
      exact inv.freshP p pe hgp
  · -- refPos
    intro i e hx
    obtain ⟨e0, hg0, hrefs, _, hpos⟩ := hsurv i e hx
    rcases hpos with ⟨h1, h2⟩ | hge
    · rw [if_neg h1, if_neg h2] at hrefs
      have := hrp i e0 hg0
      omega
    · exact hge
  · show s2.pHead = s.pHead
    exact q2H
  · rfl
  · show s2.current = s.current
    exact q2cur
  · show s2.fresh = s.fresh
    exact q2fresh
  · show s2.pCount - 1 = s.pCount - 1
    rw [q2C]
  · show hget (hset (hdel s.progs t) p { pe with next := none }) t = none
    rw [hpchar t, if_neg hpt, if_pos rfl]
  · intro i x hx
    rw [hpchar i] at hx
    by_cases hpi : p = i
    · rw [if_pos hpi] at hx
      injection hx with hx
      subst hx
      exact ⟨pe, hpi ▸ hgp, rfl, rfl, rfl⟩
    · rw [if_neg hpi] at hx
      by_cases hti : t = i
      · rw [if_pos hti] at hx
        cases hx
      · rw [if_neg hti] at hx
        exact ⟨x, hx, rfl, rfl, rfl⟩
  · intro i x hit hg0
    by_cases hpi : p = i
    · have hxpe : x = pe := by
        rw [← hpi, hgp] at hg0
        injection hg0 with hg0
        exact hg0.symm
      subst hxpe
      refine ⟨{ x with next := none }, ?_, rfl, rfl, rfl⟩
      show hget (hset (hdel s.progs t) p { x with next := none }) i = _
      rw [hpchar i, if_pos hpi]
    · refine ⟨x, ?_, rfl, rfl, rfl⟩
      show hget (hset (hdel s.progs t) p { pe with next := none }) i = _
      rw [hpchar i, if_neg hpi, if_neg (fun hh => hit hh.symm)]
      exact hg0
  · intro i e' hx
    have hx' : hget s2.shaders i = some e' := hx
    obtain ⟨e0, hg0, _, hinst, _⟩ := hsurv i e' hx'
    exact ⟨e0, hg0, hinst⟩

theorem ifFlip (a w : Nat) : (if a = w then (1 : Int) else 0)
    = (if w = a then 1 else 0) := by
  by_cases hh : a = w
  · rw [if_pos hh, if_pos hh.symm]
  · rw [if_neg hh, if_neg (fun k => hh k.symm)]


/-- Common core of the head-insertion argument of `GLES2_CacheProgram`'s
miss path: starting from a heap `hb` that differs from the old program
heap at most by back-pointing its head at the fresh id `pid`, consing the
fresh entry, updating head/count, and incrementing the two shader
reference counts preserves the cache invariant and leaves the new entry
as the live head. -/
theorem linkNewAux {s : St} {pid v f : Nat} {hb : PHeap} {ne : PEntry}
    {tl : Option Nat} {sB s' : St}
    (inv : CacheCoreInv s)
    (hfreshP : ∀ i e, hget s.progs i = some e → i < pid)
    (hptrP : ∀ i e, hget s.progs i = some e →
       (∀ q, e.prev = some q → q < pid) ∧ (∀ q, e.next = some q → q < pid))
    (hpfr : pid < s.fresh)
    (hHlive : ∀ hd, s.pHead = some hd → (hget s.progs hd).isSome)
    (hkeys : hb.map Prod.fst = s.progs.map Prod.fst)
    (hbwd : ∀ i x, hget hb i = some x → ∃ x0, hget s.progs i = some x0 ∧
       x.vertex = x0.vertex ∧ x.fragment = x0.fragment ∧ x.blend = x0.blend ∧
       x.next = x0.next ∧ (x.prev = x0.prev ∨ (x.prev = some pid ∧ s.pHead = some i)))
    (hne : ne.vertex = v ∧ ne.fragment = f ∧ ne.prev = none ∧ ne.next = s.pHead)
    (hrc : ∀ w, refCountOf hb w = refCountOf s.progs w)
    (hlen : hb.length = s.progs.length)
    (htl : ∀ t0, tl = some t0 → t0 = pid ∨ s.pTail = some t0)
    (hI1 : incRef { s with
             progs := (pid, ne) :: hb,
             pHead := some pid,
             pTail := tl,
             pCount := s.pCount + 1 } v = some sB)
    (hI2 : incRef sB f = some s') :
    CacheCoreInv s' ∧ s'.pHead = some pid ∧ hget s'.progs pid = some ne ∧
    s'.pTail = tl ∧ s'.current = s.current ∧ s'.fresh = s.fresh ∧
    s'.pCount = s.pCount + 1 ∧ s'.lastError = s.lastError ∧ s'.trace = s.trace ∧
    (∀ i e', hget s'.shaders i = some e' → ∃ e0, hget s.shaders i = some e0 ∧
       e'.references = e0.references + (if i = v then 1 else 0)
         + (if i = f then 1 else 0) ∧ e'.inst = e0.inst) := by
  obtain ⟨hnev, hnef, hnep, hnen⟩ := hne
  obtain ⟨ev, hgev, hsB⟩ := incRef_eq hI1
  subst hsB
  obtain ⟨ef, hgef, hs'⟩ := incRef_eq hI2
  have hgev' : hget s.shaders v = some ev := hgev
  have hgef' : hget (hset s.shaders v
      { ev with references := ev.references + 1 }) f = some ef := hgef
  have hFpr : s'.progs = (pid, ne) :: hb := by rw [hs']
  have hFsh : s'.shaders = hset (hset s.shaders v
      { ev with references := ev.references + 1 }) f
      { ef with references := ef.references + 1 } := by rw [hs']
  have hFH : s'.pHead = some pid := by rw [hs']
  have hFT : s'.pTail = tl := by rw [hs']
  have hFC : s'.pCount = s.pCount + 1 := by rw [hs']
  have hFcur : s'.current = s.current := by rw [hs']
  have hFfr : s'.fresh = s.fresh := by rw [hs']
  have hFle : s'.lastError = s.lastError := by rw [hs']
  have hFtr : s'.trace = s.trace := by rw [hs']
  have hFshc : s'.shCount = s.shCount := by rw [hs']
  have schar : ∀ i, hget s'.shaders i
      = if f = i then some { ef with references := ef.references + 1 }
        else if v = i then some { ev with references := ev.references + 1 }
        else hget s.shaders i := by
    intro i
    rw [hFsh, hget_hset]
    by_cases hfi : f = i
    · rw [if_pos hfi, if_pos hfi, hgef', Option.map_some']
    · rw [if_neg hfi, if_neg hfi, hget_hset]
      by_cases hvi : v = i
      · rw [if_pos hvi, if_pos hvi, hgev', Option.map_some']
      · rw [if_neg hvi, if_neg hvi]
  have hkeysS : s'.shaders.map Prod.fst = s.shaders.map Prod.fst := by
    rw [hFsh, hset_map_fst, hset_map_fst]
  have hpres : ∀ w, (hget s.shaders w).isSome → (hget s'.shaders w).isSome := by
    intro w hw
    rw [hget_isSome_iff_mem, hkeysS]
    exact hget_isSome_iff_mem.mp hw
  have hsurv : ∀ i e', hget s'.shaders i = some e' → ∃ e0,
      hget s.shaders i = some e0 ∧
      e'.references = e0.references + (if i = v then 1 else 0)
        + (if i = f then 1 else 0) ∧ e'.inst = e0.inst := by
    intro i e' hgi
    rw [schar i] at hgi
    by_cases hfi : f = i
    · rw [if_pos hfi] at hgi
      injection hgi with hgi
      subst hgi
      rw [hget_hset] at hgef'
      by_cases hvf : v = f
      · rw [if_pos hvf, hgev', Option.map_some'] at hgef'
        injection hgef' with hgef'
        subst hgef'
        refine ⟨ev, by rw [← hfi, ← hvf]; exact hgev', ?_, rfl⟩
        rw [if_pos (by rw [← hfi, ← hvf]), if_pos hfi.symm]
      · rw [if_neg hvf] at hgef'
        refine ⟨ef, by rw [← hfi]; exact hgef', ?_, rfl⟩
        rw [if_neg (fun hh : i = v => hvf ((hfi.trans hh).symm)), if_pos hfi.symm]
        dsimp only
        omega
    · rw [if_neg hfi] at hgi
      by_cases hvi : v = i
      · rw [if_pos hvi] at hgi
        injection hgi with hgi
        subst hgi
        refine ⟨ev, by rw [← hvi]; exact hgev', ?_, rfl⟩
        rw [if_pos hvi.symm, if_neg (fun hh : i = f => hfi hh.symm)]
        dsimp only
        omega
      · rw [if_neg hvi] at hgi
        refine ⟨e', hgi, ?_, rfl⟩
        rw [if_neg (fun hh : i = v => hvi hh.symm),
          if_neg (fun hh : i = f => hfi hh.symm)]
        omega
  have hpidnm : pid ∉ s.progs.map Prod.fst := by
    intro hmem
    obtain ⟨e, he⟩ := Option.isSome_iff_exists.mp (hget_isSome_iff_mem.mpr hmem)
    exact absurd (hfreshP pid e he) (lt_irrefl pid)
  refine ⟨?_, hFH, by rw [hFpr, hget_cons, if_pos rfl], hFT, hFcur, hFfr,
    hFC, hFle, hFtr, hsurv⟩
  constructor
  · rw [hFpr, List.map_cons, List.nodup_cons, hkeys]
    exact ⟨hpidnm, inv.nodupP⟩
  · rw [hkeysS]
    exact inv.nodupS
  · intro i x hx
    rw [hFpr, hget_cons] at hx
    rw [hFfr]
    by_cases hpi : pid = i
    · rw [← hpi]
      exact hpfr
    · rw [if_neg hpi] at hx
      obtain ⟨x0, hx0, _⟩ := hbwd i x hx
      exact lt_trans (hfreshP i x0 hx0) hpfr
  · intro i e hx
    obtain ⟨e0, hg0, _⟩ := hsurv i e hx
    rw [hFfr]
    exact inv.freshS i e0 hg0
  · intro i x hx
    rw [hFpr, hget_cons] at hx
    rw [hFfr]
    by_cases hpi : pid = i
    · rw [if_pos hpi] at hx
      injection hx with hx
      subst hx
      constructor
      · intro q hq
        rw [hnep] at hq
        cases hq
      · intro q hq
        rw [hnen] at hq
        obtain ⟨e, he⟩ := Option.isSome_iff_exists.mp (hHlive q hq)
        exact lt_trans (hfreshP q e he) hpfr
    · rw [if_neg hpi] at hx
      obtain ⟨x0, hx0, _, _, _, hnx, hpv⟩ := hbwd i x hx
      constructor
      · intro q hq
        rcases hpv with hpv | ⟨hpv, _⟩
        · rw [hpv] at hq
          exact lt_trans ((hptrP i x0 hx0).1 q hq) hpfr
        · rw [hpv] at hq
          injection hq with hq
          rw [← hq]
          exact hpfr
      · intro q hq
        rw [hnx] at hq
        exact lt_trans ((hptrP i x0 hx0).2 q hq) hpfr
  · intro y ey x ex hy hyp hx
    rw [hFpr, hget_cons] at hy
    rw [hFpr, hget_cons] at hx
    by_cases hpy : pid = y
    · rw [if_pos hpy] at hy
      injection hy with hy
      subst hy
      rw [hnep] at hyp
      cases hyp
    · rw [if_neg hpy] at hy
      obtain ⟨ey0, hy0, _, _, _, _, hpv⟩ := hbwd y ey hy
      rcases hpv with hpv | ⟨hpv, hhd⟩
      · rw [hpv] at hyp
        by_cases hpx : pid = x
        · exfalso
          have := (hptrP y ey0 hy0).1 x hyp
          omega
        · rw [if_neg hpx] at hx
          obtain ⟨ex0, hx0, _, _, _, hnx, _⟩ := hbwd x ex hx
          rw [hnx]
          exact inv.backlink y ey0 x ex0 hy0 hyp hx0
      · rw [hpv] at hyp
        injection hyp with hyp
        rw [← hyp] at hx
        rw [if_pos rfl] at hx
        injection hx with hx
        subst hx
        rw [hnen, hhd]
  · intro i x hx
    rw [hFpr, hget_cons] at hx
    by_cases hpi : pid = i
    · rw [if_pos hpi] at hx
      injection hx with hx
      subst hx
      rw [hnev, hnef]
      refine ⟨hpres v (by rw [hgev']; rfl), hpres f ?_⟩
      have hm : f ∈ s.shaders.map Prod.fst := by
        have hm0 := hget_isSome_iff_mem.mp (show (hget (hset s.shaders v
          { ev with references := ev.references + 1 }) f).isSome by
            rw [hgef']; rfl)
        rw [hset_map_fst] at hm0
        exact hm0
      exact hget_isSome_iff_mem.mpr hm
    · rw [if_neg hpi] at hx
      obtain ⟨x0, hx0, hvv, hff, _⟩ := hbwd i x hx
      rw [hvv, hff]
      exact ⟨hpres x0.vertex (inv.shadersLive i x0 hx0).1,
        hpres x0.fragment (inv.shadersLive i x0 hx0).2⟩
  · intro i e hx
    obtain ⟨e0, hg0, hrefs, _⟩ := hsurv i e hx
    have he0 := inv.refEq i e0 hg0
    rw [hFpr, refCountOf_cons, hrc i, hnev, hnef, ifFlip v i, ifFlip f i]
    omega
  · rw [hFC, hFpr, List.length_cons, hlen, inv.pCountEq]
    omega
  · rw [hFshc, hFsh, hset_length, hset_length]
    exact inv.shCountEq
  · intro i ei j ej hi hj hinst
    obtain ⟨e0i, hg0i, _, hii⟩ := hsurv i ei hi
    obtain ⟨e0j, hg0j, _, hjj⟩ := hsurv j ej hj
    exact inv.instUniq i e0i j e0j hg0i hg0j (by rw [← hii, ← hjj, hinst])
  · intro hn
    rw [hFH] at hn
    cases hn
  · intro t0 ht0
    rw [hFT] at ht0
    rw [hFfr]
    rcases htl t0 ht0 with h1 | h1
    · rw [h1]
      exact hpfr
    · exact inv.tailFresh t0 h1

/-- Invariant preservation for the whole insert-at-head block of
`GLES2_CacheProgram`'s miss path (lines 507-522). -/
theorem linkNewProgram_post {s s' : St} {pid v f : Nat} {blend : Int}
    (inv : CacheCoreInv s)
    (hfreshP : ∀ i e, hget s.progs i = some e → i < pid)
    (hptrP : ∀ i e, hget s.progs i = some e →
       (∀ q, e.prev = some q → q < pid) ∧ (∀ q, e.next = some q → q < pid))
    (hpfr : pid < s.fresh)
    (h : linkNewProgram s pid v f blend = some s') :
    CacheCoreInv s' ∧ s'.pHead = some pid ∧
    (∃ ne, hget s'.progs pid = some ne ∧ ne.vertex = v ∧ ne.fragment = f) ∧
    s'.current = s.current ∧ s'.fresh = s.fresh ∧
    s'.pCount = s.pCount + 1 ∧ s'.lastError = s.lastError ∧ s'.trace = s.trace ∧
    (∀ t0, s'.pTail = some t0 → (t0 = pid ∧ s.pHead = none) ∨ s.pTail = some t0) ∧
    (∀ i e', hget s'.shaders i = some e' → ∃ e0, hget s.shaders i = some e0 ∧
       e'.references = e0.references + (if i = v then 1 else 0)
         + (if i = f then 1 else 0) ∧ e'.inst = e0.inst) := by
  unfold linkNewProgram at h
  cases hH : s.pHead with
  | some hd =>
    rw [hH] at h
    dsimp only at h
    cases hghd : hget s.progs hd with
    | none =>
      rw [show pwr s.progs hd (fun x => { x with prev := some pid }) = none by
        unfold pwr; rw [hghd]] at h
      simp only [Option.bind_eq_bind, Option.none_bind] at h
      exact Option.noConfusion h
    | some ehd =>
      rw [show pwr s.progs hd (fun x => { x with prev := some pid })
          = some (hset s.progs hd { ehd with prev := some pid }) by
        unfold pwr; rw [hghd]] at h
      simp only [Option.bind_eq_bind, Option.some_bind, pure] at h
      rw [Option.bind_eq_some] at h
      obtain ⟨sB, hI1, h⟩ := h
      rw [Option.bind_eq_some] at h
      obtain ⟨sF, hI2, h⟩ := h
      injection h with h
      subst h
      obtain ⟨hinv, hH', hlive, hT', hcur, hfr, hC, hle, htr, hsh⟩ :=
        linkNewAux inv hfreshP hptrP hpfr
          (fun hd' hh => by
            rw [hH] at hh
            injection hh with hh
            rw [← hh, hghd]
            rfl)
          (hset_map_fst s.progs hd { ehd with prev := some pid })
          (fun i x hx => by
            rw [hget_hset] at hx
            by_cases hdi : hd = i
            · rw [if_pos hdi, hghd, Option.map_some'] at hx
              injection hx with hx
              subst hx
              exact ⟨ehd, hdi ▸ hghd, rfl, rfl, rfl, rfl,
                Or.inr ⟨rfl, by rw [hH, hdi]⟩⟩
            · rw [if_neg hdi] at hx
              exact ⟨x, hx, rfl, rfl, rfl, rfl, Or.inl rfl⟩)
          ⟨rfl, rfl, rfl, hH.symm⟩
          (fun w => refCountOf_hset_core { ehd with prev := some pid }
            inv.nodupP hghd rfl rfl w)
          (hset_length s.progs hd { ehd with prev := some pid })
          (fun t0 ht0 => Or.inr ht0)
          hI1 hI2
      refine ⟨hinv, hH', ⟨_, hlive, rfl, rfl⟩, hcur, hfr, hC, hle, htr, ?_, hsh⟩
      intro t0 ht0
      rw [hT'] at ht0
      exact Or.inr ht0
  | none =>
    rw [hH] at h
    dsimp only at h
    simp only [Option.bind_eq_bind, Option.some_bind, pure] at h
    rw [Option.bind_eq_some] at h
    obtain ⟨sB, hI1, h⟩ := h
    rw [Option.bind_eq_some] at h
    obtain ⟨sF, hI2, h⟩ := h
    injection h with h
    subst h
    obtain ⟨hinv, hH', hlive, hT', hcur, hfr, hC, hle, htr, hsh⟩ :=
      linkNewAux inv hfreshP hptrP hpfr
        (fun hd hh => by
          rw [hH] at hh
          exact Option.noConfusion hh)
        rfl
        (fun i x hx => ⟨x, hx, rfl, rfl, rfl, rfl, Or.inl rfl⟩)
        ⟨rfl, rfl, rfl, hH.symm⟩
        (fun w => rfl)
        rfl
        (fun t0 ht0 => by
          injection ht0 with ht0
          exact Or.inl ht0.symm)
        hI1 hI2
    refine ⟨hinv, hH', ⟨_, hlive, rfl, rfl⟩, hcur, hfr, hC, hle, htr, ?_, hsh⟩
    intro t0 ht0
    rw [hT'] at ht0
    injection ht0 with ht0
    exact Or.inl ⟨ht0.symm, rfl⟩

/-- The core invariant only depends on the cache fields and is monotone
in the allocation counter. -/
theorem coreInv_congr {s s' : St} (inv : CacheCoreInv s)
    (hpr : s'.progs = s.progs) (hsh : s'.shaders = s.shaders)
    (hH : s'.pHead = s.pHead) (hT : s'.pTail = s.pTail)
    (hC : s'.pCount = s.pCount) (hSC : s'.shCount = s.shCount)
    (hfr : s.fresh ≤ s'.fresh) : CacheCoreInv s' := by
  constructor
  · rw [hpr]
    exact inv.nodupP
  · rw [hsh]
    exact inv.nodupS
  · intro i e hx
    rw [hpr] at hx
    exact lt_of_lt_of_le (inv.freshP i e hx) hfr
  · intro i e hx
    rw [hsh] at hx
    exact lt_of_lt_of_le (inv.freshS i e hx) hfr
  · intro i e hx
    rw [hpr] at hx
    exact ⟨fun q hq => lt_of_lt_of_le ((inv.ptrFresh i e hx).1 q hq) hfr,
      fun q hq => lt_of_lt_of_le ((inv.ptrFresh i e hx).2 q hq) hfr⟩
  · intro y ey x ex hy hyp hx
    rw [hpr] at hy hx
    exact inv.backlink y ey x ex hy hyp hx
  · intro i e hx
    rw [hpr] at hx
    rw [hsh]
    exact inv.shadersLive i e hx
  · intro i e hx
    rw [hsh] at hx
    rw [hpr]
    exact inv.refEq i e hx
  · rw [hC, hpr]
    exact inv.pCountEq
  · rw [hSC, hsh]
    exact inv.shCountEq
  · intro i ei j ej hi hj
    rw [hsh] at hi hj
    exact inv.instUniq i ei j ej hi hj
  · intro hn
    rw [hH] at hn
    rw [hpr]
    exact inv.headNone hn
  · intro t0 ht0
    rw [hT] at ht0
    exact lt_of_lt_of_le (inv.tailFresh t0 ht0) hfr

/-- `GLES2_CacheProgram` preserves the core invariant; on success the
returned program is the live head of the cache and every cached shader is
referenced; on failure the cache part of the state is untouched. -/
theorem cacheProgram_post {s : St} {v f : Nat} {blend : Int} {aOk lOk : Bool}
    {r : Option Nat} {s₂ : St}
    (inv : CacheCoreInv s)
    (hzr : ∀ i e, hget s.shaders i = some e → 1 ≤ e.references ∨ i = v ∨ i = f)
    (h : GLES2_CacheProgram s v f blend aOk lOk = some (r, s₂)) :
    CacheCoreInv s₂ ∧ s₂.current = s.current ∧
    (r = none → s₂.progs = s.progs ∧ s₂.shaders = s.shaders ∧
      (∀ i e, hget s₂.shaders i = some e → 1 ≤ e.references ∨ i = v ∨ i = f)) ∧
    (∀ p, r = some p → s₂.pHead = some p ∧
      (∃ pe, hget s₂.progs p = some pe ∧ pe.vertex = v ∧ pe.fragment = f) ∧
      (∀ i e, hget s₂.shaders i = some e → 1 ≤ e.references) ∧
      (∀ i e', hget s₂.shaders i = some e' → ∃ e0, hget s.shaders i = some e0 ∧
        e'.inst = e0.inst)) := by
  unfold GLES2_CacheProgram at h
  cases hcf : chainFind s.progs (fun e => e.vertex = v && e.fragment = f)
      s.pHead (s.progs.length + 1) with
  | none =>
    rw [hcf] at h
    exact Option.noConfusion h
  | some vres =>
  cases vres with
  | some e =>
    rw [hcf] at h
    dsimp only at h
    obtain ⟨ent, hge, hpred⟩ := chainFind_some hcf
    simp only [Bool.and_eq_true, decide_eq_true_eq] at hpred
    have hrefpos : ∀ i e', hget s.shaders i = some e' → 1 ≤ e'.references := by
      intro i e' hgi
      rcases hzr i e' hgi with h1 | h1 | h1
      · exact h1
      · rw [inv.refEq i e' hgi, h1]
        exact refCountOf_pos hge (Or.inl hpred.1)
      · rw [inv.refEq i e' hgi, h1]
        exact refCountOf_pos hge (Or.inr hpred.2)
    by_cases hpc : s.pCount > 1
    · rw [if_pos hpc] at h
      simp only [Option.bind_eq_bind] at h
      rw [Option.bind_eq_some] at h
      obtain ⟨sP, hprom, h⟩ := h
      simp only [pure, Option.some.injEq, Prod.mk.injEq] at h
      obtain ⟨hr, hs2⟩ := h
      subst hs2
      obtain ⟨hinv, hH', hT', hSh, hcur, hfr', hle', htr', hC', hshc', hlivemap⟩ :=
        promote_coreInv inv hprom
      refine ⟨hinv, hcur, ?_, ?_⟩
      · intro hrn
        exact Option.noConfusion (hr.trans hrn)
      · intro p hp
        have hep : e = p := Option.some.inj (hr.trans hp)
        subst hep
        obtain ⟨x', hx', hxv, hxf⟩ := hlivemap e ent hge
        refine ⟨hH', ⟨x', hx', by rw [hxv]; exact hpred.1,
            by rw [hxf]; exact hpred.2⟩,
          fun i e' hgi => hrefpos i e' (by rw [← hSh]; exact hgi), ?_⟩
        intro i e' hgi
        exact ⟨e', by rw [← hSh]; exact hgi, rfl⟩
    · rw [if_neg hpc] at h
      simp only [pure, Option.some.injEq, Prod.mk.injEq] at h
      obtain ⟨hr, hs2⟩ := h
      subst hs2
      have hlen1 : s.progs.length ≤ 1 := by
        have := inv.pCountEq
        omega
      have hsmall := chainFind_small hlen1 hcf
      refine ⟨inv, rfl, ?_, ?_⟩
      · intro hrn
        exact Option.noConfusion (hr.trans hrn)
      · intro p hp
        have hep : e = p := Option.some.inj (hr.trans hp)
        subst hep
        exact ⟨hsmall, ⟨ent, hge, hpred.1, hpred.2⟩, hrefpos,
          fun i e' hgi => ⟨e', hgi, rfl⟩⟩
  | none =>
    rw [hcf] at h
    dsimp only at h
    cases aOk with
    | false =>
      simp only [Bool.not_false, if_true, pure, Option.some.injEq, Prod.mk.injEq] at h
      obtain ⟨hr, hs2⟩ := h
      subst hs2
      refine ⟨coreInv_congr inv rfl rfl rfl rfl rfl rfl (le_refl _), rfl, ?_, ?_⟩
      · intro hrn
        exact ⟨rfl, rfl, hzr⟩
      · intro p hp
        exact Option.noConfusion (hr.trans hp)
    | true =>
      simp only [Bool.not_true, Bool.false_eq_true, if_false] at h
      cases lOk with
      | false =>
        simp only [Bool.not_false, if_true, pure, Option.some.injEq, Prod.mk.injEq] at h
        obtain ⟨hr, hs2⟩ := h
        subst hs2
        refine ⟨coreInv_congr inv rfl rfl rfl rfl rfl rfl (Nat.le_succ _), rfl, ?_, ?_⟩
        · intro hrn
          exact ⟨rfl, rfl, hzr⟩
        · intro p hp
          exact Option.noConfusion (hr.trans hp)
      | true =>
        simp only [Bool.not_true, Bool.false_eq_true, if_false] at h
        simp only [Option.bind_eq_bind] at h
        rw [Option.bind_eq_some] at h
        obtain ⟨sL, hL, h⟩ := h
        have inv₁ : CacheCoreInv { s with
            fresh := s.fresh + 1,
            trace := GLCmd.createProgram s.fresh :: s.trace } :=
          coreInv_congr inv rfl rfl rfl rfl rfl rfl (Nat.le_succ _)
        obtain ⟨invL, hHL, hliveL, hcurL, hfrL, hCL, hleL, htrL, htailL, hshL⟩ :=
          linkNewProgram_post inv₁ (fun i e hx => inv.freshP i e hx)
            (fun i e hx => inv.ptrFresh i e hx) (Nat.lt_succ_self _) hL
        have hcurL' : sL.current = s.current := hcurL
        have hCL' : sL.pCount = s.pCount + 1 := hCL
        have hrpL : ∀ i e, hget sL.shaders i = some e → 1 ≤ e.references := by
          intro i e hgi
          obtain ⟨e0, hg0, hrefs, _⟩ := hshL i e hgi
          have hg0' : hget s.shaders i = some e0 := hg0
          have hnn : 0 ≤ e0.references := by
            rw [inv.refEq i e0 hg0']
            exact refCountOf_nonneg _ _
          rcases hzr i e0 hg0' with h1 | h1 | h1 <;> split_ifs at hrefs <;> omega
        by_cases hgt : sL.pCount > 8
        · rw [if_pos hgt] at h
          rw [Option.bind_eq_some] at h
          obtain ⟨sE, hE, h⟩ := h
          simp only [pure, Option.some.injEq, Prod.mk.injEq] at h
          obtain ⟨hr, hs2⟩ := h
          subst hs2
          obtain ⟨t, te, p', hTt, hgt', hprev, hppt, invE, hrpE, hHE, hTE,
            hcurE, hfrE, hCE, hgnone, hbackmap, hfwdmap, hshmapE⟩ :=
            evictTail_post invL hrpL hE
          have htne : s.fresh ≠ t := by
            rcases htailL t hTt with ⟨hteq, hnone⟩ | hold
            · exfalso
              have hnone' : s.pHead = none := hnone
              have hemp : s.progs = [] := inv.headNone hnone'
              have hc0 : s.pCount = 0 := by
                rw [inv.pCountEq, hemp]
                rfl
              omega
            · have hold' : s.pTail = some t := hold
              have := inv.tailFresh t hold'
              omega
          refine ⟨invE, by rw [hcurE]; exact hcurL', ?_, ?_⟩
          · intro hrn
            exact Option.noConfusion (hr.trans hrn)
          · intro p hp
            have hep : s.fresh = p := Option.some.inj (hr.trans hp)
            subst hep
            obtain ⟨ne, hne, hnev, hnef⟩ := hliveL
            obtain ⟨x', hx', hxv, hxf, _⟩ := hfwdmap s.fresh ne htne hne
            refine ⟨by rw [hHE]; exact hHL,
              ⟨x', hx', by rw [hxv]; exact hnev, by rw [hxf]; exact hnef⟩,
              hrpE, ?_⟩
            intro i e' hgi
            obtain ⟨e1, hg1, hinst1⟩ := hshmapE i e' hgi
            obtain ⟨e0, hg0, _, hinst0⟩ := hshL i e1 hg1
            have hg0' : hget s.shaders i = some e0 := hg0
            exact ⟨e0, hg0', hinst1.trans hinst0⟩
        · rw [if_neg hgt] at h
          simp only [pure, Option.some_bind, Option.some.injEq, Prod.mk.injEq] at h
          obtain ⟨hr, hs2⟩ := h
          subst hs2
          refine ⟨invL, hcurL', ?_, ?_⟩
          · intro hrn
            exact Option.noConfusion (hr.trans hrn)
          · intro p hp
            have hep : s.fresh = p := Option.some.inj (hr.trans hp)
            subst hep
            refine ⟨hHL, hliveL, hrpL, ?_⟩
            intro i e' hgi
            obtain ⟨e0, hg0, _, hinst0⟩ := hshL i e' hgi
            have hg0' : hget s.shaders i = some e0 := hg0
            exact ⟨e0, hg0', hinst0⟩

/-- `GLES2_CacheShader` preserves the core invariant, never touches the
program cache, and the only shader entry it can add is the returned one
(inserted with zero references). -/
theorem cacheShader_post {env : Env} {s : St} {ty : ShaderType} {blend : Int}
    {aOk lOk : Bool} {r : Option Nat} {s₁ : St}
    (inv : CacheCoreInv s)
    (h : GLES2_CacheShader env s ty blend aOk lOk = some (r, s₁)) :
    CacheCoreInv s₁ ∧ s₁.progs = s.progs ∧ s₁.current = s.current ∧
    s₁.pHead = s.pHead ∧ s₁.pTail = s.pTail ∧
    (∀ i e, hget s₁.shaders i = some e → hget s.shaders i = some e ∨ r = some i) ∧
    (∀ i e, hget s.shaders i = some e → hget s₁.shaders i = some e) ∧
    (∀ vv, r = some vv → ∃ sh inst ev, env.getShader ty blend = some sh ∧
      findInstance sh env.formats = some inst ∧
      hget s₁.shaders vv = some ev ∧ ev.inst = inst) := by
  unfold GLES2_CacheShader at h
  cases hgs : env.getShader ty blend with
  | none =>
    rw [hgs] at h
    injection h with h
    cases h
    exact ⟨coreInv_congr inv rfl rfl rfl rfl rfl rfl (le_refl _), rfl, rfl, rfl,
      rfl, fun i e hx => Or.inl hx,
      fun i e hx => hx, fun vv hv => Option.noConfusion hv⟩
  | some sh =>
    rw [hgs] at h
    dsimp only at h
    cases hfi : findInstance sh env.formats with
    | none =>
      rw [hfi] at h
      injection h with h
      cases h
      exact ⟨coreInv_congr inv rfl rfl rfl rfl rfl rfl (le_refl _), rfl, rfl, rfl,
        rfl, fun i e hx => Or.inl hx,
      fun i e hx => hx, fun vv hv => Option.noConfusion hv⟩
    | some inst =>
      rw [hfi] at h
      dsimp only at h
      cases hfind : s.shaders.find? (fun p => p.2.inst = inst) with
      | some p =>
        rw [hfind] at h
        injection h with h
        cases h
        refine ⟨inv, rfl, rfl, rfl, rfl, fun i e hx => Or.inl hx,
          fun i e hx => hx, ?_⟩
        intro vv hv
        injection hv with hv
        subst hv
        refine ⟨sh, inst, p.2, rfl, hfi, ?_, ?_⟩
        · exact hget_of_mem inv.nodupS (List.mem_of_find?_eq_some hfind)
        · have := List.find?_some hfind
          simpa only [decide_eq_true_eq] using this
      | none =>
        rw [hfind] at h
        dsimp only at h
        cases aOk with
        | false =>
          simp only [Bool.not_false, if_true, Option.some.injEq] at h
          cases h
          exact ⟨coreInv_congr inv rfl rfl rfl rfl rfl rfl (le_refl _), rfl, rfl,
            rfl, rfl, fun i e hx => Or.inl hx,
      fun i e hx => hx, fun vv hv => Option.noConfusion hv⟩
        | true =>
          simp only [Bool.not_true, Bool.false_eq_true, if_false] at h
          cases lOk with
          | false =>
            simp only [Bool.not_false, if_true, Option.some.injEq] at h
            cases h
            exact ⟨coreInv_congr inv rfl rfl rfl rfl rfl rfl (Nat.le_succ _), rfl,
              rfl, rfl, rfl, fun i e hx => Or.inl hx,
      fun i e hx => hx, fun vv hv => Option.noConfusion hv⟩
          | true =>
            simp only [Bool.not_true, Bool.false_eq_true, if_false,
              Option.some.injEq] at h
            cases h
            -- fresh insertion of (s.fresh, ⟨ty, inst, 0⟩)
            have hnm : s.fresh ∉ s.shaders.map Prod.fst := by
              intro hmem
              obtain ⟨e, he⟩ :=
                Option.isSome_iff_exists.mp (hget_isSome_iff_mem.mpr hmem)
              exact absurd (inv.freshS s.fresh e he) (lt_irrefl _)
            have hpres : ∀ w, (hget s.shaders w).isSome →
                (hget ((s.fresh, (⟨ty, inst, 0⟩ : SEntry)) :: s.shaders) w).isSome := by
              intro w hw
              rw [hget_cons]
              by_cases hfw : s.fresh = w
              · rw [if_pos hfw]
                rfl
              · rw [if_neg hfw]
                exact hw
            have hchar : ∀ i, hget ((s.fresh, (⟨ty, inst, 0⟩ : SEntry)) :: s.shaders) i
                = if s.fresh = i then some ⟨ty, inst, 0⟩ else hget s.shaders i :=
              fun i => hget_cons _ _ _ i
            have hnoinst : ∀ j ej, hget s.shaders j = some ej → ej.inst ≠ inst := by
              intro j ej hj hinst
              have hm := mem_of_hget hj
              have := List.find?_eq_none.mp hfind (j, ej) hm
              simp only [decide_eq_true_eq] at this
              exact this hinst
            refine ⟨?_, rfl, rfl, rfl, rfl, ?_, ?_, ?_⟩
            · constructor
              · exact inv.nodupP
              · show (((s.fresh, (⟨ty, inst, 0⟩ : SEntry)) :: s.shaders).map
                  Prod.fst).Nodup
                rw [List.map_cons, List.nodup_cons]
                exact ⟨hnm, inv.nodupS⟩
              · intro i e hx
                exact lt_of_lt_of_le (inv.freshP i e hx) (Nat.le_succ _)
              · intro i e hx
                rw [hchar i] at hx
                by_cases hfw : s.fresh = i
                · rw [← hfw]
                  exact Nat.lt_succ_self _
                · rw [if_neg hfw] at hx
                  exact lt_of_lt_of_le (inv.freshS i e hx) (Nat.le_succ _)
              · intro i e hx
                exact ⟨fun q hq => lt_of_lt_of_le ((inv.ptrFresh i e hx).1 q hq)
                    (Nat.le_succ _),
                  fun q hq => lt_of_lt_of_le ((inv.ptrFresh i e hx).2 q hq)
                    (Nat.le_succ _)⟩
              · exact inv.backlink
              · intro i e hx
                exact ⟨hpres e.vertex (inv.shadersLive i e hx).1,
                  hpres e.fragment (inv.shadersLive i e hx).2⟩
              · intro i e hx
                rw [hchar i] at hx
                by_cases hfw : s.fresh = i
                · rw [if_pos hfw] at hx
                  injection hx with hx
                  subst hx
                  show (0 : Int) = refCountOf s.progs i
                  rw [← hfw]
                  refine (refCountOf_eq_zero_of_fresh ?_).symm
                  intro p hp
                  have hg := hget_of_mem inv.nodupP hp
                  have hl := inv.shadersLive p.1 p.2 hg
                  obtain ⟨ev, hev⟩ := Option.isSome_iff_exists.mp hl.1
                  obtain ⟨ef, hef⟩ := Option.isSome_iff_exists.mp hl.2
                  exact ⟨inv.freshS _ _ hev, inv.freshS _ _ hef⟩
                · rw [if_neg hfw] at hx
                  exact inv.refEq i e hx
              · exact inv.pCountEq
              · show s.shCount + 1 = ((s.fresh, (⟨ty, inst, 0⟩ : SEntry))
                  :: s.shaders).length
                rw [List.length_cons, inv.shCountEq]
                omega
              · intro i ei j ej hi hj hinst
                rw [hchar i] at hi
                rw [hchar j] at hj
                by_cases hfwi : s.fresh = i <;> by_cases hfwj : s.fresh = j
                · rw [← hfwi, ← hfwj]
                · rw [if_pos hfwi] at hi
                  rw [if_neg hfwj] at hj
                  injection hi with hi
                  subst hi
                  exact absurd hinst.symm (hnoinst j ej hj)
                · rw [if_neg hfwi] at hi
                  rw [if_pos hfwj] at hj
                  injection hj with hj
                  subst hj
                  exact absurd hinst (hnoinst i ei hi)
                · rw [if_neg hfwi] at hi
                  rw [if_neg hfwj] at hj
                  exact inv.instUniq i ei j ej hi hj hinst
              · exact inv.headNone
              · intro t0 ht0
                exact lt_of_lt_of_le (inv.tailFresh t0 ht0) (Nat.le_succ _)
            · intro i e hx
              rw [hchar i] at hx
              by_cases hfw : s.fresh = i
              · exact Or.inr (by rw [hfw])
              · rw [if_neg hfw] at hx
                exact Or.inl hx
            · intro i e hx
              rw [hchar i, if_neg (fun hh => absurd (inv.freshS i e hx)
                (by rw [← hh]; exact lt_irrefl _))]
              exact hx
            · intro vv hv
              injection hv with hv
              subst hv
              exact ⟨sh, inst, ⟨ty, inst, 0⟩, rfl, hfi,
                by rw [hchar s.fresh, if_pos rfl], rfl⟩

/-- Evicting a zero-reference shader preserves the core invariant: by
`refEq` no allocated program references it. -/
theorem evictShader_coreInv {s : St} {i : Nat} {s' : St} {e : SEntry}
    (inv : CacheCoreInv s) (hge : hget s.shaders i = some e)
    (hr0 : e.references ≤ 0)
    (h : GLES2_EvictShader s i = some s') :
    CacheCoreInv s' ∧ s'.progs = s.progs ∧ s'.current = s.current ∧
    s'.pHead = s.pHead ∧ s'.pTail = s.pTail ∧
    (∀ j e', hget s'.shaders j = some e' → hget s.shaders j = some e') := by
  obtain ⟨e2, hg2, hs'⟩ := evictShader_eq h
  subst hs'
  have hzero : refCountOf s.progs i = 0 := by
    have h1 := inv.refEq i e hge
    have h2 := refCountOf_nonneg s.progs i
    omega
  have hnoref : ∀ p ep, hget s.progs p = some ep →
      ep.vertex ≠ i ∧ ep.fragment ≠ i := by
    intro p ep hp
    constructor <;> intro hv
    · have := refCountOf_pos hp (Or.inl hv)
      omega
    · have := refCountOf_pos hp (Or.inr hv)
      omega
  have hchar : ∀ j, hget (hdel s.shaders i) j
      = if i = j then none else hget s.shaders j := fun j => hget_hdel _ _ _
  have hsub : ∀ j e', hget (hdel s.shaders i) j = some e' →
      hget s.shaders j = some e' := by
    intro j e' hj
    rw [hchar j] at hj
    by_cases hij : i = j
    · rw [if_pos hij] at hj
      cases hj
    · rw [if_neg hij] at hj
      exact hj
  refine ⟨?_, rfl, rfl, rfl, rfl, hsub⟩
  constructor
  · exact inv.nodupP
  · exact hdel_nodup inv.nodupS
  · exact inv.freshP
  · intro j e' hj
    exact inv.freshS j e' (hsub j e' hj)
  · exact inv.ptrFresh
  · exact inv.backlink
  · intro p ep hp
    have hl := inv.shadersLive p ep hp
    have hn := hnoref p ep hp
    constructor
    · rw [hchar ep.vertex, if_neg (fun hh => hn.1 hh.symm)]
      exact hl.1
    · rw [hchar ep.fragment, if_neg (fun hh => hn.2 hh.symm)]
      exact hl.2
  · intro j e' hj
    exact inv.refEq j e' (hsub j e' hj)
  · exact inv.pCountEq
  · show s.shCount - 1 = (hdel s.shaders i).length
    have := hdel_length inv.nodupS hge
    have := inv.shCountEq
    omega
  · intro a ea b eb ha hb
    exact inv.instUniq a ea b eb (hsub a ea ha) (hsub b eb hb)
  · exact inv.headNone
  · exact inv.tailFresh

/-- One `if (references <= 0) GLES2_EvictShader` step of the `fault:`
cleanup: afterwards every surviving shader is positively referenced or
covered by the remaining argument. -/
theorem evictIfZero_post {s s₁ : St} {K : Nat → Prop} {o : Option Nat}
    (inv : CacheCoreInv s)
    (hrp : ∀ i e, hget s.shaders i = some e →
      1 ≤ e.references ∨ o = some i ∨ K i)
    (hc : (o = none ∧ s₁ = s) ∨
       (∃ vi e, o = some vi ∧ hget s.shaders vi = some e ∧
         ((e.references ≤ 0 ∧ GLES2_EvictShader s vi = some s₁) ∨
          (1 ≤ e.references ∧ s₁ = s)))) :
    CacheCoreInv s₁ ∧ s₁.progs = s.progs ∧ s₁.current = s.current ∧
    s₁.pHead = s.pHead ∧ s₁.pTail = s.pTail ∧
    (∀ i e, hget s₁.shaders i = some e → 1 ≤ e.references ∨ K i) := by
  rcases hc with ⟨ho, hs1⟩ | ⟨vi, e, ho, hge, hev⟩
  · subst hs1
    refine ⟨inv, rfl, rfl, rfl, rfl, ?_⟩
    intro i e hx
    rcases hrp i e hx with h1 | h1 | h1
    · exact Or.inl h1
    · rw [ho] at h1
      cases h1
    · exact Or.inr h1
  · rcases hev with ⟨hr0, hev⟩ | ⟨hr1, hs1⟩
    · obtain ⟨hinv, hp, hcu, hh, ht, hsub⟩ := evictShader_coreInv inv hge hr0 hev
      refine ⟨hinv, hp, hcu, hh, ht, ?_⟩
      intro i e' hx
      have hx0 := hsub i e' hx
      rcases hrp i e' hx0 with h1 | h1 | h1
      · exact Or.inl h1
      · exfalso
        rw [ho] at h1
        injection h1 with h1
        subst h1
        -- the evicted entry cannot survive
        obtain ⟨_, _, hsE⟩ := evictShader_eq hev
        rw [hsE] at hx
        have hx' : hget (hdel s.shaders vi) vi = some e' := hx
        rw [hget_hdel, if_pos rfl] at hx'
        cases hx'
      · exact Or.inr h1
    · subst hs1
      refine ⟨inv, rfl, rfl, rfl, rfl, ?_⟩
      intro i e' hx
      rcases hrp i e' hx with h1 | h1 | h1
      · exact Or.inl h1
      · rw [ho] at h1
        injection h1 with h1
        subst h1
        rw [hge] at hx
        injection hx with hx
        subst hx
        exact Or.inl hr1
      · exact Or.inr h1


/-- The `fault:` cleanup with no vertex argument: the fragment stage
evicts the fragment shader exactly when it is unreferenced, and
`current_program` is cleared. -/
theorem selectFault_none_inv {s : St} {fo : Option Nat} {r : Int} {s' : St}
    (inv : CacheCoreInv s)
    (hrp : ∀ i e, hget s.shaders i = some e → 1 ≤ e.references ∨ fo = some i)
    (h : selectFault s none fo = some (r, s')) : CacheInv s' := by
  unfold selectFault at h
  cases fo with
  | none =>
    simp only [Option.bind_eq_bind, pure, Option.some_bind, Option.some.injEq, Prod.mk.injEq] at h
    obtain ⟨hr, hs'⟩ := h
    subst hs'
    refine ⟨coreInv_congr inv rfl rfl rfl rfl rfl rfl (le_refl _), ?_,
      fun c hc => Option.noConfusion hc⟩
    intro i e hx
    have hx' : hget s.shaders i = some e := hx
    rcases hrp i e hx' with h1 | h1
    · exact h1
    · cases h1
  | some fi =>
    simp only [Option.bind_eq_bind, pure, Option.some_bind] at h
    cases hge : hget s.shaders fi with
    | none =>
      rw [hge] at h
      simp only [Option.bind_eq_bind, Option.none_bind] at h
      exact Option.noConfusion h
    | some e =>
      rw [hge] at h
      simp only [Option.bind_eq_bind, Option.some_bind] at h
      by_cases hr0 : e.references ≤ 0
      · rw [if_pos hr0] at h
        rw [Option.bind_eq_some] at h
        obtain ⟨s₂, hev, h⟩ := h
        simp only [pure, Option.some.injEq, Prod.mk.injEq] at h
        obtain ⟨hr, hs'⟩ := h
        subst hs'
        obtain ⟨inv2, hp2, hcu2, hh2, ht2, hsub⟩ := evictShader_coreInv inv hge hr0 hev
        refine ⟨coreInv_congr inv2 rfl rfl rfl rfl rfl rfl (le_refl _), ?_,
          fun c hc => Option.noConfusion hc⟩
        intro i e' hx
        have hx' : hget s₂.shaders i = some e' := hx
        have hx0 := hsub i e' hx'
        rcases hrp i e' hx0 with h1 | h1
        · exact h1
        · exfalso
          injection h1 with h1
          subst h1
          obtain ⟨_, _, hsE⟩ := evictShader_eq hev
          rw [hsE] at hx'
          have hx'' : hget (hdel s.shaders fi) fi = some e' := hx'
          rw [hget_hdel, if_pos rfl] at hx''
          cases hx''
      · rw [if_neg hr0] at h
        simp only [Option.bind_eq_bind, pure, Option.some_bind, Option.some.injEq, Prod.mk.injEq] at h
        obtain ⟨hr, hs'⟩ := h
        subst hs'
        refine ⟨coreInv_congr inv rfl rfl rfl rfl rfl rfl (le_refl _), ?_,
          fun c hc => Option.noConfusion hc⟩
        intro i e' hx
        have hx' : hget s.shaders i = some e' := hx
        rcases hrp i e' hx' with h1 | h1
        · exact h1
        · injection h1 with h1
          subst h1
          rw [hge] at hx'
          injection hx' with hx'
          subst hx'
          exact Or.inl (by omega) |>.elim id id

/-- The full `fault:` cleanup restores the invariant: only its two shader
arguments can be unreferenced, it evicts exactly the unreferenced ones,
and it clears `current_program`. -/
theorem selectFault_inv {s : St} {vo fo : Option Nat} {r : Int} {s' : St}
    (inv : CacheCoreInv s)
    (hrp : ∀ i e, hget s.shaders i = some e →
      1 ≤ e.references ∨ vo = some i ∨ fo = some i)
    (h : selectFault s vo fo = some (r, s')) : CacheInv s' := by
  cases vo with
  | none =>
    refine selectFault_none_inv inv ?_ h
    intro i e hx
    rcases hrp i e hx with h1 | h1 | h1
    · exact Or.inl h1
    · cases h1
    · exact Or.inr h1
  | some vi =>
    unfold selectFault at h
    simp only [Option.bind_eq_bind, pure, Option.some_bind] at h
    cases hge : hget s.shaders vi with
    | none =>
      rw [hge] at h
      simp only [Option.bind_eq_bind, Option.none_bind] at h
      exact Option.noConfusion h
    | some e =>
      rw [hge] at h
      simp only [Option.bind_eq_bind, Option.some_bind] at h
      by_cases hr0 : e.references ≤ 0
      · rw [if_pos hr0] at h
        rw [Option.bind_eq_some] at h
        obtain ⟨s₁, hev, h⟩ := h
        obtain ⟨inv1, hp1, hcu1, hh1, ht1, hsub⟩ := evictShader_coreInv inv hge hr0 hev
        refine selectFault_none_inv inv1 ?_ h
        intro i e' hx
        have hx0 := hsub i e' hx
        rcases hrp i e' hx0 with h1 | h1 | h1
        · exact Or.inl h1
        · exfalso
          injection h1 with h1
          subst h1
          obtain ⟨_, _, hsE⟩ := evictShader_eq hev
          rw [hsE] at hx
          have hx'' : hget (hdel s.shaders vi) vi = some e' := hx
          rw [hget_hdel, if_pos rfl] at hx''
          cases hx''
        · exact Or.inr h1
      · rw [if_neg hr0] at h
        refine selectFault_none_inv inv ?_ h
        intro i e' hx
        rcases hrp i e' hx with h1 | h1 | h1
        · exact Or.inl h1
        · injection h1 with h1
          subst h1
          rw [hge] at hx
          injection hx with hx
          subst hx
          exact Or.inl (by omega)
        · exact Or.inr h1


/-- The `fault:` cleanup with no vertex argument always returns -1. -/
theorem selectFault_none_fst {s : St} {fo : Option Nat} {p : Int × St}
    (h : selectFault s none fo = some p) : p.1 = -1 := by
  unfold selectFault at h
  cases fo with
  | none =>
    simp only [Option.bind_eq_bind, pure, Option.some_bind, Option.some.injEq] at h
    rw [← h]
  | some fi =>
    simp only [Option.bind_eq_bind, pure, Option.some_bind] at h
    cases hge : hget s.shaders fi with
    | none =>
      rw [hge] at h
      simp only [Option.bind_eq_bind, Option.none_bind] at h
      exact Option.noConfusion h
    | some e =>
      rw [hge] at h
      simp only [Option.bind_eq_bind, Option.some_bind] at h
      by_cases hr0 : e.references ≤ 0
      · rw [if_pos hr0] at h
        rw [Option.bind_eq_some] at h
        obtain ⟨s₂, hev, h⟩ := h
        simp only [pure, Option.some.injEq] at h
        rw [← h]
      · rw [if_neg hr0] at h
        simp only [Option.bind_eq_bind, pure, Option.some_bind,
          Option.some.injEq] at h
        rw [← h]

/-- The `fault:` cleanup always returns -1. -/
theorem selectFault_fst {s : St} {vo fo : Option Nat} {p : Int × St}
    (h : selectFault s vo fo = some p) : p.1 = -1 := by
  cases vo with
  | none => exact selectFault_none_fst h
  | some vi =>
    unfold selectFault at h
    simp only [Option.bind_eq_bind, pure, Option.some_bind] at h
    cases hge : hget s.shaders vi with
    | none =>
      rw [hge] at h
      simp only [Option.bind_eq_bind, Option.none_bind] at h
      exact Option.noConfusion h
    | some e =>
      rw [hge] at h
      simp only [Option.bind_eq_bind, Option.some_bind] at h
      by_cases hr0 : e.references ≤ 0
      · rw [if_pos hr0] at h
        rw [Option.bind_eq_some] at h
        obtain ⟨s₁, hev, h⟩ := h
        exact selectFault_none_fst h
      · rw [if_neg hr0] at h
        exact selectFault_none_fst h

/-- The tail of `GLES2_SelectProgram` after the programs-differ check:
`GLES2_CacheProgram`, `glUseProgram`, the projection upload, and the
fault paths all preserve the invariant. -/
theorem selectProgramRest_inv {s₂ : St} {v f : Nat} {blend : Int} {o : Orc}
    {r : Int} {s' : St}
    (inv2 : CacheCoreInv s₂)
    (hzr2 : ∀ i e, hget s₂.shaders i = some e →
      1 ≤ e.references ∨ i = v ∨ i = f)
    (h : (do
        let (p?, s) ← GLES2_CacheProgram s₂ v f blend o.pAllocOk o.linkOk
        match p? with
        | none => selectFault s (some v) (some f)
        | some p =>
          let s := { s with trace := .useProgram p :: s.trace }
          if !o.useOk then
            selectFault { s with lastError := some .programBindError }
              (some v) (some f)
          else
            let s := { s with current := some p }
            let _ ← hget s.progs p
            let s := { s with trace := .uniformProjection :: s.trace }
            if !o.projOk then
              selectFault { s with lastError := some .uniformUploadError }
                (some v) (some f)
            else pure (0, s)) = some (r, s')) :
    CacheInv s' ∧ (r = 0 → ∃ p pe, s'.current = some p ∧
      hget s'.progs p = some pe ∧ pe.vertex = v ∧ pe.fragment = f ∧
      (∀ i e', hget s'.shaders i = some e' → ∃ e0, hget s₂.shaders i = some e0 ∧
        e'.inst = e0.inst)) := by
  simp only [Option.bind_eq_bind] at h
  rw [Option.bind_eq_some] at h
  obtain ⟨⟨p?, s₃⟩, hcp, h⟩ := h
  obtain ⟨inv3, hcu3, hfail3, hsucc3⟩ := cacheProgram_post inv2 hzr2 hcp
  dsimp only at h
  cases p? with
  | none =>
    obtain ⟨hp3, hsh3, hzr3⟩ := hfail3 rfl
    have hfst : r = -1 := selectFault_fst h
    refine ⟨selectFault_inv inv3 ?_ h, ?_⟩
    · intro i e hx
      rcases hzr3 i e hx with h1 | h1 | h1
      · exact Or.inl h1
      · exact Or.inr (Or.inl (by rw [h1]))
      · exact Or.inr (Or.inr (by rw [h1]))
    · intro h0
      rw [h0] at hfst
      exact absurd hfst (by decide)
  | some p =>
    obtain ⟨hhd3, hlv3, hrp3, hinstmap3⟩ := hsucc3 p rfl
    cases huse : o.useOk with
    | false =>
      rw [huse] at h
      simp only [Bool.not_false, if_true] at h
      have hfst : r = -1 := selectFault_fst h
      refine ⟨selectFault_inv ?_ ?_ h, ?_⟩
      · exact coreInv_congr inv3 rfl rfl rfl rfl rfl rfl (le_refl _)
      · intro i e hx
        have hx' : hget s₃.shaders i = some e := hx
        exact Or.inl (hrp3 i e hx')
      · intro h0
        rw [h0] at hfst
        exact absurd hfst (by decide)
    | true =>
      rw [huse] at h
      simp only [Bool.not_true, Bool.false_eq_true, if_false,
        Option.bind_eq_bind] at h
      rw [Option.bind_eq_some] at h
      obtain ⟨pe, hgpe, h⟩ := h
      cases hproj : o.projOk with
      | false =>
        rw [hproj] at h
        simp only [Bool.not_false, if_true] at h
        have hfst : r = -1 := selectFault_fst h
        refine ⟨selectFault_inv ?_ ?_ h, ?_⟩
        · exact coreInv_congr inv3 rfl rfl rfl rfl rfl rfl (le_refl _)
        · intro i e hx
          have hx' : hget s₃.shaders i = some e := hx
          exact Or.inl (hrp3 i e hx')
        · intro h0
          rw [h0] at hfst
          exact absurd hfst (by decide)
      | true =>
        rw [hproj] at h
        simp only [Bool.not_true, Bool.false_eq_true, if_false, pure,
          Option.some.injEq, Prod.mk.injEq] at h
        obtain ⟨hr, hs'⟩ := h
        subst hs'
        obtain ⟨pe3, hpe3, hpev, hpef⟩ := hlv3
        refine ⟨⟨coreInv_congr inv3 rfl rfl rfl rfl rfl rfl (le_refl _), ?_, ?_⟩, ?_⟩
        · intro i e hx
          have hx' : hget s₃.shaders i = some e := hx
          exact hrp3 i e hx'
        · intro c hc
          have hc' : some p = some c := hc
          injection hc' with hc'
          subst hc'
          exact ⟨hhd3, by rw [hpe3]; rfl⟩
        · intro h0
          refine ⟨p, pe3, rfl, hpe3, hpev, hpef, ?_⟩
          intro i e' hx
          have hx' : hget s₃.shaders i = some e' := hx
          exact hinstmap3 i e' hx'

/-- `GLES2_SelectProgram` preserves the cache invariant on every
non-crashing path: shader/program cache bookkeeping, reference counts,
and the `current_program`-is-live-head property. -/
theorem selectProgram_inv {env : Env} {s : St} {isrc : ImageSource} {blend : Int}
    {o : Orc} {r : Int} {s' : St}
    (inv : CacheInv s)
    (h : GLES2_SelectProgram env s isrc blend o = some (r, s')) : CacheInv s' := by
  unfold GLES2_SelectProgram at h
  simp only [Option.bind_eq_bind] at h
  rw [Option.bind_eq_some] at h
  obtain ⟨⟨v?, s₁⟩, hcs1, h⟩ := h
  obtain ⟨inv1, hp1, hcu1, hh1, ht1, hsub1, hfwd1, hres1⟩ :=
    cacheShader_post inv.core hcs1
  dsimp only at h
  cases v? with
  | none =>
    refine selectFault_inv inv1 ?_ h
    intro i e hx
    rcases hsub1 i e hx with h1 | h1
    · exact Or.inl (inv.refPos i e h1)
    · cases h1
  | some v =>
    rw [Option.bind_eq_some] at h
    obtain ⟨⟨f?, s₂⟩, hcs2, h⟩ := h
    obtain ⟨inv2, hp2, hcu2, hh2, ht2, hsub2, hfwd2, hres2⟩ :=
      cacheShader_post inv1 hcs2
    dsimp only at h
    have hrefs2 : ∀ i e, hget s₂.shaders i = some e →
        1 ≤ e.references ∨ i = v ∨ f? = some i := by
      intro i e hx
      rcases hsub2 i e hx with h1 | h1
      · rcases hsub1 i e h1 with h2 | h2
        · exact Or.inl (inv.refPos i e h2)
        · injection h2 with h2
          exact Or.inr (Or.inl h2.symm)
      · exact Or.inr (Or.inr h1)
    cases f? with
    | none =>
      refine selectFault_inv inv2 ?_ h
      intro i e hx
      rcases hrefs2 i e hx with h1 | h1 | h1
      · exact Or.inl h1
      · exact Or.inr (Or.inl (by rw [h1]))
      · cases h1
    | some f =>
      have hzr2 : ∀ i e, hget s₂.shaders i = some e →
          1 ≤ e.references ∨ i = v ∨ i = f := by
        intro i e hx
        rcases hrefs2 i e hx with h1 | h1 | h1
        · exact Or.inl h1
        · exact Or.inr (Or.inl h1)
        · injection h1 with h1
          exact Or.inr (Or.inr h1.symm)
      have hprogs2 : s₂.progs = s.progs := by rw [hp2, hp1]
      have hcur2 : s₂.current = s.current := by rw [hcu2, hcu1]
      have hhead2 : s₂.pHead = s.pHead := by rw [hh2, hh1]
      dsimp only at h
      cases hcur : s₂.current with
      | none =>
        rw [hcur] at h
        simp only [Option.bind_eq_bind, pure, Option.some_bind,
          Bool.false_eq_true, if_false] at h
        exact (selectProgramRest_inv inv2 hzr2 h).1
      | some c =>
        rw [hcur] at h
        simp only [Option.bind_eq_bind] at h
        cases hgc : hget s₂.progs c with
        | none =>
          rw [hgc] at h
          simp only [Option.none_bind] at h
          exact Option.noConfusion h
        | some ce =>
          rw [hgc] at h
          simp only [pure, Option.some_bind] at h
          cases hb : (ce.vertex = v && ce.fragment = f) with
          | false =>
            rw [hb] at h
            simp only [Bool.false_eq_true, if_false] at h
            exact (selectProgramRest_inv inv2 hzr2 h).1
          | true =>
            rw [hb] at h
            simp only [if_true] at h
            simp only [pure, Option.some.injEq, Prod.mk.injEq] at h
            obtain ⟨hr, hs'⟩ := h
            subst hs'
            have hmatch : ce.vertex = v ∧ ce.fragment = f := by
              simpa only [Bool.and_eq_true, decide_eq_true_eq] using hb
            refine ⟨inv2, ?_, ?_⟩
            · intro i e hx
              rcases hzr2 i e hx with h1 | h1 | h1
              · exact h1
              · subst h1
                rw [inv2.refEq i e hx]
                exact refCountOf_pos hgc (Or.inl hmatch.1)
              · subst h1
                rw [inv2.refEq i e hx]
                exact refCountOf_pos hgc (Or.inr hmatch.2)
            · intro c' hc'
              rw [hcur] at hc'
              injection hc' with hc'
              subst hc'
              have hc0 : s.current = some c := by rw [← hcur2, hcur]
              obtain ⟨hhd, hlv⟩ := inv.curHead c hc0
              refine ⟨by rw [hhead2]; exact hhd, ?_⟩
              rw [hprogs2]
              exact hlv

/-- The freshly created renderer state satisfies the cache invariant. -/
theorem cacheInv_init : CacheInv initSt := by
  refine ⟨⟨?_, ?_, ?_, ?_, ?_, ?_, ?_, ?_, ?_, ?_, ?_, ?_, ?_⟩, ?_, ?_⟩
  · exact List.nodup_nil
  · exact List.nodup_nil
  · intro i e hx
    cases hx
  · intro i e hx
    cases hx
  · intro i e hx
    cases hx
  · intro y ey x ex hy
    cases hy
  · intro i e hx
    cases hx
  · intro i e hx
    cases hx
  · rfl
  · rfl
  · intro i ei j ej hi
    cases hi
  · intro _
    rfl
  · intro t0 ht0
    cases ht0
  · intro i e hx
    cases hx
  · intro c hc
    cases hc

/-- One driven operation preserves the invariant. -/
theorem runOp_inv {env : Env} {s s' : St} {op : Op}
    (inv : CacheInv s) (h : runOp env s op = some s') : CacheInv s' := by
  cases op with
  | select isrc blend o =>
    simp only [runOp] at h
    rw [Option.map_eq_some'] at h
    obtain ⟨⟨r, st⟩, hsp, heq⟩ := h
    subst heq
    exact selectProgram_inv inv hsp
  | invalidate =>
    simp only [runOp, Option.some.injEq] at h
    subst h
    refine ⟨coreInv_congr inv.core rfl rfl rfl rfl rfl rfl (le_refl _), ?_, ?_⟩
    · intro i e hx
      exact inv.refPos i e hx
    · intro c hc
      exact Option.noConfusion hc

/-- Any state reached by a sequence of cache operations from the fresh
renderer satisfies the cache invariant. -/
theorem runOps_inv {env : Env} {ops : List Op} {s : St}
    (h : runOps env ops = some s) : CacheInv s := by
  unfold runOps at h
  have haux : ∀ (l : List Op) (s0 sF : St), CacheInv s0 →
      List.foldlM (runOp env) s0 l = some sF → CacheInv sF := by
    intro l
    induction l with
    | nil =>
      intro s0 sF h0 hf
      simp only [List.foldlM_nil, pure, Option.some.injEq] at hf
      rw [← hf]
      exact h0
    | cons op t ih =>
      intro s0 sF h0 hf
      rw [List.foldlM_cons] at hf
      simp only [Option.bind_eq_bind] at hf
      rw [Option.bind_eq_some] at hf
      obtain ⟨s1, h1, h2⟩ := hf
      exact ih s1 sF (runOp_inv h0 h1) h2
  exact haux ops initSt s cacheInv_init h

/-- C2: at every reachable state, each shader cache entry's reference
count equals the number of program cache entries whose `vertex_shader` or
`fragment_shader` pointer is that entry (`refCountOf`), and no shader
entry survives an operation with a non-positive count: a shader whose
count reaches zero during an eviction or a fault cleanup is evicted from
the shader cache within the same operation. -/
theorem C2_theorem (env : Env) (ops : List Op) (s : St)
    (h : runOps env ops = some s) :
    ∀ i e, hget s.shaders i = some e →
      e.references = refCountOf s.progs i ∧ 1 ≤ e.references := by
  have inv := runOps_inv h
  intro i e hx
  exact ⟨inv.core.refEq i e hx, inv.refPos i e hx⟩

/-- Witness for C2: the invariant instantiated on the concrete run
`opsW` under `env1`. -/
theorem C2_witness :
    runOps env1 opsW = some stW ∧
    (∀ i e, hget stW.shaders i = some e →
      e.references = refCountOf stW.progs i ∧ 1 ≤ e.references) :=
  have hrun : runOps env1 opsW = some stW := (Option.some_get (by decide)).symm
  ⟨hrun, C2_theorem env1 opsW stW hrun⟩


/-- Success postcondition of `GLES2_SelectProgram`: on return 0 the
current program is a live cache entry whose shader pointers are cached
entries carrying exactly the platform-resolved instances for this
(source, blend) pair. -/
theorem selectProgram_success {env : Env} {s : St} {isrc : ImageSource}
    {blend : Int} {o : Orc} {s₁ : St}
    (inv : CacheInv s)
    (h : GLES2_SelectProgram env s isrc blend o = some (0, s₁)) :
    ∃ v f p pe shV instV shF instF ev ef,
      env.getShader .vertexDefault blend = some shV ∧
      findInstance shV env.formats = some instV ∧
      env.getShader (match isrc with
        | .solid => ShaderType.fragmentSolid
        | .texture => ShaderType.fragmentTexture) blend = some shF ∧
      findInstance shF env.formats = some instF ∧
      s₁.current = some p ∧ hget s₁.progs p = some pe ∧
      pe.vertex = v ∧ pe.fragment = f ∧
      hget s₁.shaders v = some ev ∧ ev.inst = instV ∧
      hget s₁.shaders f = some ef ∧ ef.inst = instF := by
  unfold GLES2_SelectProgram at h
  simp only [Option.bind_eq_bind] at h
  rw [Option.bind_eq_some] at h
  obtain ⟨⟨v?, sA⟩, hcs1, h⟩ := h
  obtain ⟨invA, hpA, hcuA, hhA, htA, hsubA, hfwdA, hresA⟩ :=
    cacheShader_post inv.core hcs1
  dsimp only at h
  cases v? with
  | none => exact absurd (show (0 : Int) = -1 from selectFault_fst h) (by omega)
  | some v =>
    rw [Option.bind_eq_some] at h
    obtain ⟨⟨f?, sB⟩, hcs2, h⟩ := h
    obtain ⟨invB, hpB, hcuB, hhB, htB, hsubB, hfwdB, hresB⟩ :=
      cacheShader_post invA hcs2
    dsimp only at h
    cases f? with
    | none => exact absurd (show (0 : Int) = -1 from selectFault_fst h) (by omega)
    | some f =>
      obtain ⟨shV, instV, ev1, hgsV, hfiV, hgev1, hinstV1⟩ := hresA v rfl
      obtain ⟨shF, instF, ef2, hgsF, hfiF, hgef2, hinstF2⟩ := hresB f rfl
      have hgev2 : hget sB.shaders v = some ev1 := hfwdB v ev1 hgev1
      have hzrB : ∀ i e, hget sB.shaders i = some e →
          1 ≤ e.references ∨ i = v ∨ i = f := by
        intro i e hx
        rcases hsubB i e hx with h1 | h1
        · rcases hsubA i e h1 with h2 | h2
          · exact Or.inl (inv.refPos i e h2)
          · injection h2 with h2
            exact Or.inr (Or.inl h2.symm)
        · injection h1 with h1
          exact Or.inr (Or.inr h1.symm)
      dsimp only at h
      cases hcur : sB.current with
      | none =>
        rw [hcur] at h
        simp only [Option.bind_eq_bind, pure, Option.some_bind,
          Bool.false_eq_true, if_false] at h
        have hres := selectProgramRest_inv invB hzrB h
        obtain ⟨p, pe, hcur', hgp, hpev, hpef, hinstmap⟩ := hres.2 rfl
        have hvl := (hres.1.core.shadersLive p pe hgp).1
        rw [hpev] at hvl
        obtain ⟨evS, hgevS⟩ := Option.isSome_iff_exists.mp hvl
        obtain ⟨e0, hg0, hiv⟩ := hinstmap v evS hgevS
        have he0 : e0 = ev1 := by
          rw [hgev2] at hg0
          exact (Option.some.inj hg0).symm
        have hfl := (hres.1.core.shadersLive p pe hgp).2
        rw [hpef] at hfl
        obtain ⟨efS, hgefS⟩ := Option.isSome_iff_exists.mp hfl
        obtain ⟨e0', hg0', hif⟩ := hinstmap f efS hgefS
        have he0' : e0' = ef2 := by
          rw [hgef2] at hg0'
          exact (Option.some.inj hg0').symm
        exact ⟨v, f, p, pe, shV, instV, shF, instF, evS, efS, hgsV, hfiV,
          hgsF, hfiF, hcur', hgp, hpev, hpef, hgevS,
          by rw [hiv, he0, hinstV1], hgefS, by rw [hif, he0', hinstF2]⟩
      | some c =>
        rw [hcur] at h
        simp only [Option.bind_eq_bind] at h
        cases hgc : hget sB.progs c with
        | none =>
          rw [hgc] at h
          simp only [Option.none_bind] at h
          exact Option.noConfusion h
        | some ce =>
          rw [hgc] at h
          simp only [pure, Option.some_bind] at h
          cases hb : (ce.vertex = v && ce.fragment = f) with
          | false =>
            rw [hb] at h
            simp only [Bool.false_eq_true, if_false] at h
            have hres := selectProgramRest_inv invB hzrB h
            obtain ⟨p, pe, hcur', hgp, hpev, hpef, hinstmap⟩ := hres.2 rfl
            have hvl := (hres.1.core.shadersLive p pe hgp).1
            rw [hpev] at hvl
            obtain ⟨evS, hgevS⟩ := Option.isSome_iff_exists.mp hvl
            obtain ⟨e0, hg0, hiv⟩ := hinstmap v evS hgevS
            have he0 : e0 = ev1 := by
              rw [hgev2] at hg0
              exact (Option.some.inj hg0).symm
            have hfl := (hres.1.core.shadersLive p pe hgp).2
            rw [hpef] at hfl
            obtain ⟨efS, hgefS⟩ := Option.isSome_iff_exists.mp hfl
            obtain ⟨e0', hg0', hif⟩ := hinstmap f efS hgefS
            have he0' : e0' = ef2 := by
              rw [hgef2] at hg0'
              exact (Option.some.inj hg0').symm
            exact ⟨v, f, p, pe, shV, instV, shF, instF, evS, efS, hgsV, hfiV,
              hgsF, hfiF, hcur', hgp, hpev, hpef, hgevS,
              by rw [hiv, he0, hinstV1], hgefS, by rw [hif, he0', hinstF2]⟩
          | true =>
            rw [hb] at h
            simp only [if_true, pure, Option.some.injEq, Prod.mk.injEq] at h
            obtain ⟨hr, hs'⟩ := h
            subst hs'
            have hmatch : ce.vertex = v ∧ ce.fragment = f := by
              simpa only [Bool.and_eq_true, decide_eq_true_eq] using hb
            exact ⟨v, f, c, ce, shV, instV, shF, instF, ev1, ef2, hgsV, hfiV,
              hgsF, hfiF, hcur, hgc, hmatch.1, hmatch.2, hgev2, hinstV1,
              hgef2, hinstF2⟩


/-- A `GLES2_CacheShader` call whose platform-resolved instance is
already cached is a pure cache hit: it returns that entry and leaves the
state exactly unchanged, for any allocation/compile oracle. -/
theorem cacheShader_hit {env : Env} {s₁ : St} {ty : ShaderType} {blend : Int}
    {sh : ShaderDef} {inst w : Nat} {ew : SEntry} (aOk lOk : Bool)
    (inv : CacheCoreInv s₁)
    (hgs : env.getShader ty blend = some sh)
    (hfi : findInstance sh env.formats = some inst)
    (hgw : hget s₁.shaders w = some ew) (hiw : ew.inst = inst) :
    GLES2_CacheShader env s₁ ty blend aOk lOk = some (some w, s₁) := by
  unfold GLES2_CacheShader
  simp only [hgs, hfi]
  cases hfq : s₁.shaders.find? (fun pr => pr.2.inst = inst) with
  | none =>
    exfalso
    have := List.find?_eq_none.mp hfq (w, ew) (mem_of_hget hgw)
    simp only [decide_eq_true_eq] at this
    exact this hiw
  | some q =>
    have hq2 : q.2.inst = inst := by
      have := List.find?_some hfq
      simpa only [decide_eq_true_eq] using this
    have hqget : hget s₁.shaders q.1 = some q.2 :=
      hget_of_mem inv.nodupS (List.mem_of_find?_eq_some hfq)
    have hq1 : q.1 = w :=
      inv.instUniq q.1 q.2 w ew hqget hgw (by rw [hq2, hiw])
    show some (some q.1, s₁) = some (some w, s₁)
    rw [hq1]


/-- If the current program already references the platform-resolved
shader pair for (source, blend), `GLES2_SelectProgram` takes the
programs-unchanged short-circuit: it returns 0 with the state exactly
unchanged, regardless of the failure oracle (no fallible call is
reached). -/
theorem selectProgram_idem {env : Env} {s₁ : St} {isrc : ImageSource}
    {blend : Int} (o' : Orc)
    (inv : CacheInv s₁)
    {v f p : Nat} {pe : PEntry} {shV : ShaderDef} {instV : Nat}
    {shF : ShaderDef} {instF : Nat} {ev ef : SEntry}
    (hgsV : env.getShader .vertexDefault blend = some shV)
    (hfiV : findInstance shV env.formats = some instV)
    (hgsF : env.getShader (match isrc with
        | .solid => ShaderType.fragmentSolid
        | .texture => ShaderType.fragmentTexture) blend = some shF)
    (hfiF : findInstance shF env.formats = some instF)
    (hcur : s₁.current = some p) (hgp : hget s₁.progs p = some pe)
    (hpev : pe.vertex = v) (hpef : pe.fragment = f)
    (hgev : hget s₁.shaders v = some ev) (hiv : ev.inst = instV)
    (hgef : hget s₁.shaders f = some ef) (hif : ef.inst = instF) :
    GLES2_SelectProgram env s₁ isrc blend o' = some (0, s₁) := by
  cases isrc with
  | solid =>
    have hcsV := cacheShader_hit o'.vAllocOk o'.vLoadOk inv.core hgsV hfiV hgev hiv
    have hcsF := cacheShader_hit o'.fAllocOk o'.fLoadOk inv.core hgsF hfiF hgef hif
    unfold GLES2_SelectProgram
    dsimp only
    simp only [Option.bind_eq_bind]
    rw [hcsV]
    simp only [Option.some_bind]
    rw [hcsF]
    simp only [Option.some_bind]
    rw [hcur]
    simp only [Option.bind_eq_bind]
    rw [hgp]
    simp only [pure, Option.some_bind]
    have hskip : (pe.vertex = v && pe.fragment = f) = true := by
      simp [hpev, hpef]
    rw [hskip]
    simp only [if_true]
  | texture =>
    have hcsV := cacheShader_hit o'.vAllocOk o'.vLoadOk inv.core hgsV hfiV hgev hiv
    have hcsF := cacheShader_hit o'.fAllocOk o'.fLoadOk inv.core hgsF hfiF hgef hif
    unfold GLES2_SelectProgram
    dsimp only
    simp only [Option.bind_eq_bind]
    rw [hcsV]
    simp only [Option.some_bind]
    rw [hcsF]
    simp only [Option.some_bind]
    rw [hcur]
    simp only [Option.bind_eq_bind]
    rw [hgp]
    simp only [pure, Option.some_bind]
    have hskip : (pe.vertex = v && pe.fragment = f) = true := by
      simp [hpev, hpef]
    rw [hskip]
    simp only [if_true]

/-- C5: after a successful `GLES2_SelectProgram` call from any reachable
state, an immediate second call with the same (imageSource, blendMode)
arguments returns 0 with the state *exactly* unchanged — same program
cache, same shader cache, same `current_program`, and the same GL call
trace, so in particular no `glUseProgram`, no shader/program creation and
no cache modification occurs; the fault oracle of the second call is
irrelevant because no fallible collaborator call is reached. -/
theorem C5_theorem (env : Env) (ops : List Op) (s : St)
    (hreach : runOps env ops = some s)
    (isrc : ImageSource) (blend : Int) (o o' : Orc) (s₁ : St)
    (h1 : GLES2_SelectProgram env s isrc blend o = some (0, s₁)) :
    GLES2_SelectProgram env s₁ isrc blend o' = some (0, s₁) := by
  have inv := runOps_inv hreach
  have inv1 : CacheInv s₁ := selectProgram_inv inv h1
  obtain ⟨v, f, p, pe, shV, instV, shF, instF, ev, ef, hgsV, hfiV, hgsF, hfiF,
    hcur, hgp, hpev, hpef, hgev, hiv, hgef, hif⟩ := selectProgram_success inv h1
  exact selectProgram_idem o' inv1 hgsV hfiV hgsF hfiF hcur hgp hpev hpef
    hgev hiv hgef hif

/-- Witness for C5: a concrete successful first call on the fresh
renderer, and the second call with the *all-failing* oracle still
returning 0 with the state exactly unchanged. -/
theorem C5_witness :
    runOps env1 [] = some initSt ∧
    GLES2_SelectProgram env1 initSt .solid 1 okOrc = some (0, stC5) ∧
    GLES2_SelectProgram env1 stC5 .solid 1
      ⟨false, false, false, false, false, false, false, false⟩
      = some (0, stC5) := by
  have h0 : runOps env1 [] = some initSt := rfl
  have h1 : GLES2_SelectProgram env1 initSt .solid 1 okOrc = some (0, stC5) := by
    rfl
  exact ⟨h0, h1, C5_theorem env1 [] initSt h0 .solid 1 okOrc
    ⟨false, false, false, false, false, false, false, false⟩ stC5 h1⟩
